import Mathlib

/-!
Verification of the data-join / provenance core of the IJAC-PRO-ANTI repository
(`src/execution/data_utils.py` and `src/execution/llm/process.py`).

The Python values manipulated by the code (JSON loaded from disk plus the
tuples produced by path navigation) are embedded as the inductive type
`PyVal`; Python exceptions relevant to the code's control flow are embedded
as `PyErr`; fallible Python code is embedded as `Except PyErr`-valued
functions.  The on-disk `.tmp` directory is embedded as an explicit `Store`
value; per the data model of the spec, dataset and output files hold JSON
arrays, so the store maps file names to lists of values.  Mutation is
embedded as explicit state passing (functions return the updated store or
mapping).
-/

namespace DataUtils

/-- A Python value as manipulated by the code: JSON scalars, arrays
(`list`), objects (`dict`, association list in insertion order), plus the
`(position, value)` tuples produced by `navigate_path` on an `all`
segment.  `null` also stands for Python `None`. -/
inductive PyVal where
  | null : PyVal
  | bool (b : Bool) : PyVal
  | int (n : Int) : PyVal
  | str (s : String) : PyVal
  | list (xs : List PyVal) : PyVal
  | dict (fields : List (String × PyVal)) : PyVal
  | pair (i : Nat) (v : PyVal) : PyVal
deriving Repr

/-- The Python exception kinds that drive control flow in the code.
`valueError` carries the message built at the raise site. -/
inductive PyErr where
  | valueError (msg : String) : PyErr
  | indexError : PyErr
  | keyError : PyErr
  | typeError : PyErr
  | attributeError : PyErr
deriving Repr, DecidableEq

/-- Python `dict.get(k)`: value of the first binding of `k`, `None` when
absent. -/
def dictGet (d : List (String × PyVal)) (k : String) : PyVal :=
  match d with
  | [] => .null
  | (k', v) :: rest => if k' = k then v else dictGet rest k

/-- Python `d[k] = v`: replace the value of an existing key in place,
otherwise append the new binding at the end (insertion order). -/
def dictSet (d : List (String × PyVal)) (k : String) (v : PyVal) :
    List (String × PyVal) :=
  match d with
  | [] => [(k, v)]
  | (k', w) :: rest => if k' = k then (k', v) :: rest else (k', w) :: dictSet rest k v

/-- The numeric view Python uses when comparing: `bool` is an `int`. -/
def pyNum : PyVal → Option Int
  | .bool b => some (if b then 1 else 0)
  | .int n => some n
  | _ => none

/-- `v == n` for an integer literal `n` (total, as Python `==`). -/
def pyEqInt (v : PyVal) (n : Int) : Bool :=
  match pyNum v with
  | some m => m == n
  | none => false

def isNull : PyVal → Bool
  | .null => true
  | _ => false

mutual

/-- Python `==` on embedded values (total).  `bool` and `int` compare
numerically; dicts compare by size and key-wise value equality. -/
def pyEq : PyVal → PyVal → Bool
  | .null, .null => true
  | .str a, .str b => a == b
  | .list as, .list bs => pyEqList as bs
  | .dict as, .dict bs => as.length == bs.length && pyEqDictSub as bs
  | .pair i v, .pair j w => i == j && pyEq v w
  | a, b =>
    match pyNum a, pyNum b with
    | some x, some y => x == y
    | _, _ => false

def pyEqList : List PyVal → List PyVal → Bool
  | [], [] => true
  | a :: as, b :: bs => pyEq a b && pyEqList as bs
  | _, _ => false

def pyEqDictSub : List (String × PyVal) → List (String × PyVal) → Bool
  | [], _ => true
  | (k, v) :: rest, bs => pyEq v (dictGet bs k) && pyEqDictSub rest bs

end

/-- Membership in a Python set, embedded as a list with `pyEq`-membership
(the code only ever tests membership and non-emptiness of sets). -/
def pyMem (v : PyVal) (s : List PyVal) : Bool :=
  s.any (fun w => pyEq w v)

/-- Python list indexing `xs[n]` for an `int` index: negative indices
count from the end; out-of-bounds raises `IndexError`. -/
def pyListIdx (xs : List PyVal) (n : Int) : Except PyErr PyVal :=
  if h : 0 ≤ n ∧ n.toNat < xs.length then
    .ok (xs.get ⟨n.toNat, h.2⟩)
  else
    let j := (xs.length : Int) + n
    if h' : n < 0 ∧ 0 ≤ j ∧ j.toNat < xs.length then
      .ok (xs.get ⟨j.toNat, h'.2.2⟩)
    else .error .indexError

/-- Python `xs[v]` where the index is a dynamically-typed value: `bool`
coerces to `int`, any other non-`int` raises `TypeError`. -/
def pyListGet (xs : List PyVal) (v : PyVal) : Except PyErr PyVal :=
  match pyNum v with
  | some n => pyListIdx xs n
  | none => .error .typeError

/-- Python `v >= n` for an integer `n`: numeric values compare, anything
else raises `TypeError`. -/
def pyGeInt (v : PyVal) (n : Int) : Except PyErr Bool :=
  match pyNum v with
  | some m => .ok (m ≥ n)
  | none => .error .typeError

/-! ## String primitives

The Python string methods the code relies on, re-implemented over
character lists (the standard library versions are equivalent but are
opaque to kernel reduction). -/

/-- ASCII lower-casing of one character. -/
def lowerChar (c : Char) : Char :=
  if 'A' ≤ c ∧ c ≤ 'Z' then Char.ofNat (c.toNat + 32) else c

/-- Python `s.lower()` (the code only case-folds the ASCII literals
`true`/`false`). -/
def pyLower (s : String) : String :=
  String.mk (s.toList.map lowerChar)

/-- Python `s.endswith(suffix)`. -/
def pyEndsWith (s suffix : String) : Bool :=
  suffix.toList.isSuffixOf s.toList

/-- The scan of Python `s.replace(old, new)`: replace every
non-overlapping occurrence of `old` left to right.  The first argument is
fuel, instantiated with the length of the subject, which every step
strictly consumes (`old` is nonempty at every use site). -/
def replaceLoop (old new : List Char) : Nat → List Char → List Char
  | 0, s => s
  | _ + 1, [] => []
  | fuel + 1, c :: rest =>
    if old ≠ [] ∧ old.isPrefixOf (c :: rest) then
      new ++ replaceLoop old new fuel ((c :: rest).drop old.length)
    else c :: replaceLoop old new fuel rest

/-- Python `s.replace(old, new)`. -/
def pyReplace (s old new : String) : String :=
  String.mk (replaceLoop old.toList new.toList s.toList.length s.toList)

/-! ## Path Navigator (`parse_path`, `navigate_path`) -/

/-- A parsed path segment: `('key', name)`, `('index', n)` or `('all', None)`. -/
inductive Segment where
  | key (name : String) : Segment
  | index (n : Int) : Segment
  | all : Segment
deriving Repr, DecidableEq

/-- Python `int(s)` on the bracket content: optional surrounding
whitespace, optional sign, then at least one decimal digit; anything else
raises `ValueError`. -/
def pyInt (s : List Char) : Except PyErr Int :=
  let t := (s.dropWhile (·.isWhitespace)).reverse.dropWhile (·.isWhitespace) |>.reverse
  let (sign, digits) :=
    match t with
    | '-' :: rest => ((-1 : Int), rest)
    | '+' :: rest => ((1 : Int), rest)
    | _ => ((1 : Int), t)
  if digits ≠ [] ∧ digits.all (·.isDigit) then
    .ok (sign * (digits.foldl (fun acc c => acc * 10 + ((c.toNat : Int) - 48)) 0))
  else .error (.valueError "invalid literal for int")

/-- Flush the accumulated member-name buffer as a `key` segment. -/
def flushKey (current : List Char) : List Segment :=
  if current = [] then [] else [Segment.key (String.mk current)]

/-- The character loop of `parse_path`: outside a bracket (`bracket =
none`) `current` accumulates the member name since the last flush; after
an unmatched `[` (`bracket = some content`) the bracket content
accumulates until the matching `]`.  Reaching the end of the string
inside a bracket is Python's `path.index` failing to find `]`, a
`ValueError`; non-`*` bracket content is parsed as a decimal integer or
the parse fails. -/
def parsePathAux : List Char → List Char → Option (List Char) →
    Except PyErr (List Segment)
  | [], current, none => .ok (flushKey current)
  | [], _, some _ => .error (.valueError "substring not found")
  | c :: rest, current, none =>
    if c = '[' then parsePathAux rest current (some [])
    else if c = '.' then do
      let tail ← parsePathAux rest [] none
      pure (flushKey current ++ tail)
    else parsePathAux rest (current ++ [c]) none
  | c :: rest, current, some content =>
    if c = ']' then do
      let seg ← if content = ['*'] then pure Segment.all
                else Segment.index <$> pyInt content
      let tail ← parsePathAux rest [] none
      pure (flushKey current ++ seg :: tail)
    else parsePathAux rest current (some (content ++ [c]))

/-- `parse_path`: parse path notation like `[*].author.name` into
segments. -/
def parse_path (path : String) : Except PyErr (List Segment) :=
  parsePathAux path.toList [] none

/-- The exception tuple `(KeyError, IndexError, TypeError)` caught around
each per-element navigation of an `all` segment. -/
def pyCaught : PyErr → Bool
  | .keyError => true
  | .indexError => true
  | .typeError => true
  | _ => false

mutual

/-- `navigate_path(data, segments)`: navigate a value along parsed path
segments.  `all` requires an array and maps the remaining segments over
its elements (via `navigateAll`); `index` requires an array and indexes
it; `key` requires an object and continues on `data.get(name)` (so a
missing member navigates on `None`).  Shape mismatches raise
`ValueError`. -/
def navigate_path (data : PyVal) : List Segment → Except PyErr PyVal
  | [] => .ok data
  | .all :: remaining =>
    match data with
    | .list xs => (navigateAll remaining xs 0).map PyVal.list
    | _ => .error (.valueError "Expected array for all segment")
  | .index n :: remaining =>
    match data with
    | .list xs =>
      match pyListIdx xs n with
      | .ok item => navigate_path item remaining
      | .error e => .error e
    | _ => .error (.valueError "Expected array for index segment")
  | .key name :: remaining =>
    match data with
    | .dict d => navigate_path (dictGet d name) remaining
    | _ => .error (.valueError "Expected object for key segment")
termination_by segs => (segs.length, 0)

/-- The per-element loop of the `all` case of `navigate_path`: element `i`
becomes the tuple `(i, value)`; a per-element exception in the caught
tuple `(KeyError, IndexError, TypeError)` is recorded as `(i, None)`; any
other exception propagates and aborts the whole loop. -/
def navigateAll (remaining : List Segment) (xs : List PyVal) (i : Nat) :
    Except PyErr (List PyVal) :=
  match xs with
  | [] => .ok []
  | item :: rest =>
    match navigate_path item remaining with
    | .ok v => (navigateAll remaining rest (i + 1)).map (fun vs => .pair i v :: vs)
    | .error e =>
      if pyCaught e then
        (navigateAll remaining rest (i + 1)).map (fun vs => .pair i .null :: vs)
      else .error e
termination_by (remaining.length, xs.length + 1)

end

/-! ## Persistent state: datasets, Mapping Store, Field Registry -/

/-- A lead record of the Mapping Store: a Python dict. -/
abbrev Lead := List (String × PyVal)

/-- The mapping file content `{"leads": [...]}`. -/
structure Mapping where
  leads : List Lead
deriving Repr

/-- A registry entry for one registered output file:
`{"fields": [...], "index_field": str}`. -/
structure FileInfo where
  fields : List String
  indexField : String
deriving Repr

/-- The registry file content `{"files": {...}, "fields": {...}}`:
`files` maps an output-file name to its info, `fields` maps a field name
to the output-file name that carries it. -/
structure Registry where
  files : List (String × FileInfo)
  fields : List (String × String)
deriving Repr

/-- The `.tmp` working directory: dataset and enrichment-output files
(JSON arrays, per the data model), plus the mapping and registry files
(`none` when the file does not exist yet). -/
structure Store where
  files : List (String × List PyVal)
  mapping : Option Mapping
  registry : Option Registry
deriving Repr

/-- Look up a file of the working directory by name. -/
def fileLookup (store : Store) (name : String) : Option (List PyVal) :=
  match store.files.find? (fun p => p.1 = name) with
  | some p => some p.2
  | none => none

/-- Overwrite (or create) a file of the working directory (the new
binding shadows any previous one under `fileLookup`). -/
def fileSave (store : Store) (name : String) (content : List PyVal) : Store :=
  { store with files := (name, content) :: store.files }

/-- `get_dataset_path`: a name without a `.json` suffix gets one appended
(the `.tmp/` directory prefix is implicit in the store). -/
def get_dataset_path (name : String) : String :=
  if pyEndsWith name ".json" then name else name ++ ".json"

/-- `load_mapping`: the mapping file, or the empty structure when the
file does not exist. -/
def load_mapping (store : Store) : Mapping :=
  store.mapping.getD ⟨[]⟩

/-- `load_registry`: the registry file, or the empty structure. -/
def load_registry (store : Store) : Registry :=
  store.registry.getD ⟨[], []⟩

/-- String-keyed association-list lookup (Python `dict.get` on the
registry maps). -/
def assocGet {α : Type} (l : List (String × α)) (k : String) : Option α :=
  match l.find? (fun p => p.1 = k) with
  | some p => some p.2
  | none => none

/-! ## Where-clause qualification (`get_qualified_indices`) -/

/-- The regex `(\w+)\s*=\s*(.+)` of `get_qualified_indices`: a leading
nonempty run of word characters, optional whitespace, `=`, then the value
(leading whitespace stripped greedily, but `.+` must keep at least one
character).  Returns `(field, raw value)` or `none` when the clause does
not match. -/
def parseWhere (clause : String) : Option (String × String) :=
  let cs := clause.toList
  let field := cs.takeWhile (fun c => c.isAlphanum ∨ c = '_')
  let rest := cs.dropWhile (fun c => c.isAlphanum ∨ c = '_')
  if field = [] then none
  else
    match rest.dropWhile (·.isWhitespace) with
    | '=' :: afterEq =>
      if afterEq = [] then none
      else
        let v := afterEq.dropWhile (·.isWhitespace)
        some (String.mk field, String.mk (if v = [] then [afterEq.getLast!] else v))
    | _ => none

/-- Literal coercion of the where-clause value: case-insensitive
`true`/`false` become booleans, an all-digit string becomes an integer,
anything else stays a string. -/
def coerceLit (raw : String) : PyVal :=
  if pyLower raw = "true" then .bool true
  else if pyLower raw = "false" then .bool false
  else if raw.toList ≠ [] ∧ raw.toList.all (·.isDigit) then
    .int (raw.toList.foldl (fun acc c => acc * 10 + ((c.toNat : Int) - 48)) 0)
  else .str raw

/-- The set-building loop of the registry branch: collect `item["index"]`
for every output-file record whose `field` equals the literal.  Python
`item.get` raises `AttributeError` on a non-dict record. -/
def buildMatching (field : String) (value : PyVal) :
    List PyVal → Except PyErr (List PyVal)
  | [] => .ok []
  | item :: rest =>
    match item with
    | .dict d => do
      let s ← buildMatching field value rest
      if pyEq (dictGet d field) value then pure (dictGet d "index" :: s)
      else pure s
    | _ => .error .attributeError

/-- `get_qualified_indices(mapping, where_clause, index_field)`: indices
matching the where clause.  If the field is registered, the registered
output file is loaded and leads qualify when their `index_field` value is
in the set of `index` values of matching output records (the registered
file's own `index_field` is read into a local but never used); otherwise
the legacy scan compares the field attached directly to each lead.
Returns `None` for an empty clause. -/
def get_qualified_indices (store : Store) (mapping : Mapping)
    (whereClause : String) (index_field : String) :
    Except PyErr (Option (List PyVal)) :=
  if whereClause = "" then .ok none
  else
    match parseWhere whereClause with
    | none => .error (.valueError ("Invalid where clause: " ++ whereClause))
    | some (field, raw) =>
      let value := coerceLit raw
      let registry := load_registry store
      match assocGet registry.fields field with
      | some output_file =>
        if output_file ≠ "" then
          match fileLookup store (get_dataset_path output_file) with
          | none => .ok (some [])
          | some llm_data =>
            match buildMatching field value llm_data with
            | .error e => .error e
            | .ok matching =>
              .ok (some (mapping.leads.filterMap (fun lead =>
                let leadIdx := dictGet lead index_field
                if pyMem leadIdx matching then some leadIdx else none)))
        else
          .ok (some (mapping.leads.filterMap (fun lead =>
            if pyEq (dictGet lead field) value then some (dictGet lead index_field)
            else none)))
      | none =>
        .ok (some (mapping.leads.filterMap (fun lead =>
          if pyEq (dictGet lead field) value then some (dictGet lead index_field)
          else none)))

/-! ## Extraction Engine (`extract_data`) -/

/-- One entry `{"index": ..., "value": ...}` of an extraction result. -/
structure ExtractItem where
  index : PyVal
  value : PyVal
deriving Repr

/-- The `ExtractOutput` model of `extract_data`. -/
structure ExtractOutput where
  status : String
  data : List ExtractItem
  count : Nat
  error : Option String
deriving Repr

/-- Rendering of an uncaught exception as the `str(e)` reported in an
error-status output. -/
def pyErrStr : PyErr → String
  | .valueError m => m
  | .indexError => "list index out of range"
  | .keyError => "KeyError"
  | .typeError => "TypeError"
  | .attributeError => "AttributeError"

/-- Python truthiness of an optional string (`None` and `""` are falsy). -/
def strFalsy : Option String → Bool
  | none => true
  | some s => s = ""

/-- Python truthiness of the optional projection dict (`None` and `{}`
are falsy). -/
def fieldsTruthy : Option (List (String × String)) → Bool
  | none => false
  | some l => l ≠ []

/-- Python slice `xs[n:]` (negative `n` counts from the end, clamped). -/
def pySliceFrom {α : Type} (xs : List α) (n : Int) : List α :=
  if 0 ≤ n then xs.drop n.toNat else xs.drop (((xs.length : Int) + n).toNat)

/-- Python slice `xs[:n]` (negative `n` counts from the end, clamped). -/
def pySliceTo {α : Type} (xs : List α) (n : Int) : List α :=
  if 0 ≤ n then xs.take n.toNat else xs.take (((xs.length : Int) + n).toNat)

/-- The index-field derivation of `extract_data`: `postData → postIndex`
(Python `str.replace` replaces every occurrence), else append `Index`. -/
def derive_index_field (source : String) : String :=
  if pyEndsWith source "Data" then pyReplace source "Data" "Index"
  else source ++ "Index"

/-- Per-field evaluation of projection mode: parse the path, strip a
leading `all` segment, navigate the row; any exception (parse or
navigation) yields `null` for that label only. -/
def fieldValue (item : PyVal) (fp : String) : PyVal :=
  match (do
      let segs ← parse_path fp
      match segs with
      | .all :: restSegs => navigate_path item restSegs
      | _ => navigate_path item segs : Except PyErr PyVal) with
  | .ok v => v
  | .error _ => .null

/-- The row loop of `extract_data`: indices at or beyond the dataset
length are skipped; each remaining row is fetched by Python indexing and
projected either through the fields map (per-field failures isolated as
`null`) or through the single path (a parse failure propagates, a
navigation failure yields a `null` value for the row). -/
def extractLoop (data : List PyVal) (path : Option String)
    (fields : Option (List (String × String))) :
    List PyVal → Except PyErr (List ExtractItem)
  | [] => .ok []
  | idx :: rest => do
    let ge ← pyGeInt idx (data.length : Int)
    if ge then extractLoop data path fields rest
    else do
      let item ← pyListGet data idx
      if fieldsTruthy fields then
        let fm := fields.getD []
        let value := PyVal.dict (fm.map (fun p => (p.1, fieldValue item p.2)))
        let tail ← extractLoop data path fields rest
        pure (⟨idx, value⟩ :: tail)
      else do
        let segs ← parse_path (path.getD "")
        let v := match (match segs with
                        | .all :: restSegs => navigate_path item restSegs
                        | _ => navigate_path item segs) with
                 | .ok w => w
                 | .error _ => .null
        let tail ← extractLoop data path fields rest
        pure (⟨idx, v⟩ :: tail)

/-- The body of `extract_data` after the argument and existence checks:
row selection (all rows, or the where-qualified indices), slicing by
truthy offset/limit, then the row loop.  Any uncaught exception is
reported by the caller as an error-status output. -/
def extractBody (store : Store) (source : String) (path : Option String)
    (fields : Option (List (String × String))) (whereC : Option String)
    (offset limit : Option Int) (data : List PyVal) :
    Except PyErr (List ExtractItem) := do
  let allRows := (List.range data.length).map (fun (i : Nat) => PyVal.int (i : Int))
  let indices ←
    match whereC with
    | some w =>
      if w ≠ "" then do
        let mapping := load_mapping store
        let q ← get_qualified_indices store mapping w (derive_index_field source)
        match q with
        | none => pure allRows
        | some qs => pure qs
      else pure allRows
    | none => pure allRows
  let indices := match offset with
    | some n => if n ≠ 0 then pySliceFrom indices n else indices
    | none => indices
  let indices := match limit with
    | some n => if n ≠ 0 then pySliceTo indices n else indices
    | none => indices
  extractLoop data path fields indices

/-- `extract_data(source, path, fields, where, offset, limit)`: the read
API.  Missing arguments and a missing dataset are reported as
error-status outputs; every exception escaping the body is caught and
reported likewise; otherwise the collected rows are returned with
`status="success"` and their count. -/
def extract_data (store : Store) (source : String) (path : Option String)
    (fields : Option (List (String × String))) (whereC : Option String)
    (offset limit : Option Int) : ExtractOutput :=
  if strFalsy path ∧ ¬fieldsTruthy fields then
    ⟨"error", [], 0, some "Must provide either path or fields"⟩
  else
    match fileLookup store (get_dataset_path source) with
    | none => ⟨"error", [], 0, some ("Dataset not found: " ++ get_dataset_path source)⟩
    | some data =>
      match extractBody store source path fields whereC offset limit data with
      | .ok items => ⟨"success", items, items.length, none⟩
      | .error e => ⟨"error", [], 0, some (pyErrStr e)⟩

/-! ## Linking Engine (`link_indices_func` and the CLI `link_indices`) -/

/-- The `LinkIndicesOutput` model. -/
structure LinkIndicesOutput where
  status : String
  linked : List Int
  skipped : List Int
  target_start : Option Int
  error : Option String
deriving Repr

/-- The allocator scan shared by both link entry points: fold over the
leads keeping the highest numeric `target_index_field` value seen
(`bool` counts numerically, as in Python); a non-numeric non-`None` value
raises `TypeError`, which — the scan sitting outside the `try` block —
propagates to the caller. -/
def findMaxTarget (g : String) : List Lead → Int → Except PyErr Int
  | [], acc => .ok acc
  | lead :: rest, acc =>
    match pyNum (dictGet lead g), isNull (dictGet lead g) with
    | _, true => findMaxTarget g rest acc
    | some n, _ => findMaxTarget g rest (if n > acc then n else acc)
    | none, _ => .error .typeError

/-- Position of the first lead whose `source_index_field` equals the
given source index (Python `==`, so `bool` values compare numerically). -/
def firstMatchPos (f : String) (idx : Int) : List Lead → Option Nat
  | [] => none
  | lead :: rest =>
    if pyEqInt (dictGet lead f) idx then some 0
    else (firstMatchPos f idx rest).map (· + 1)

/-- Whether some lead matches the source index. -/
def hasMatch (f : String) (idx : Int) (leads : List Lead) : Bool :=
  (firstMatchPos f idx leads).isSome

/-- The evolving state of a link loop: the (mutated-in-place) leads, the
`linked` and `skipped` output lists, and the allocator `next_target_idx`. -/
structure LinkState where
  leads : List Lead
  linked : List Int
  skipped : List Int
  next : Int
deriving Repr

/-- One iteration of the loop of `link_indices_func`: no matching lead —
skip silently; lead already carrying a non-`None` target value — record
as skipped; otherwise assign the allocator value to the lead's target
field, record as linked, advance the allocator. -/
def linkStep (f g : String) (st : LinkState) (idx : Int) : LinkState :=
  match firstMatchPos f idx st.leads with
  | none => st
  | some pos =>
    match st.leads.get? pos with
    | none => st
    | some lead =>
      if ¬ isNull (dictGet lead g) then
        { st with skipped := st.skipped ++ [idx] }
      else
        { leads := st.leads.set pos (dictSet lead g (.int st.next)),
          linked := st.linked ++ [idx],
          skipped := st.skipped,
          next := st.next + 1 }

/-- `link_indices_func(source_index_field, source_indices,
target_index_field)`: the importable linking operation, acting on an
explicit mapping state.  The allocator starts at `max_target + 1`; the
loop body raises no exception, so the function always persists the final
state and reports success (its `except` branch is unreachable); the
returned mapping is the persisted one. -/
def link_indices_func (f : String) (idxs : List Int) (g : String)
    (m : Mapping) : Except PyErr (LinkIndicesOutput × Mapping) := do
  let maxTarget ← findMaxTarget g m.leads (-1)
  let st := idxs.foldl (linkStep f g) ⟨m.leads, [], [], maxTarget + 1⟩
  pure ({ status := "success", linked := st.linked, skipped := st.skipped,
          target_start := if st.linked.isEmpty then none else some (maxTarget + 1),
          error := none }, ⟨st.leads⟩)

/-- The loop of the CLI `link-indices` command: identical to the loop of
`link_indices_func` except that a source index with no matching lead
raises `ValueError` after persisting the progress made so far; the
result carries the failing index when one was hit. -/
def cliLinkLoop (f g : String) : List Int → LinkState → LinkState × Option Int
  | [], st => (st, none)
  | idx :: rest, st =>
    match firstMatchPos f idx st.leads with
    | none => (st, some idx)
    | some pos =>
      match st.leads.get? pos with
      | none => (st, some idx)
      | some lead =>
        if ¬ isNull (dictGet lead g) then
          cliLinkLoop f g rest { st with skipped := st.skipped ++ [idx] }
        else
          cliLinkLoop f g rest
            { leads := st.leads.set pos (dictSet lead g (.int st.next)),
              linked := st.linked ++ [idx],
              skipped := st.skipped,
              next := st.next + 1 }

/-- The Python `repr` of a list of integers, as interpolated into the
CLI error message. -/
def pyReprIntList (l : List Int) : String :=
  "[" ++ String.intercalate ", " (l.map toString) ++ "]"

/-- The `ValueError` message raised by the CLI command for a source index
with no matching lead. -/
def cliLinkErrMsg (idx : Int) (linked skipped : List Int) : String :=
  "Index " ++ toString idx ++ " not found in mapping. Progress: linked=" ++
    pyReprIntList linked ++ ", skipped=" ++ pyReprIntList skipped

/-- The CLI `link_indices` command (its mapping logic, after the
comma-separated argument has been parsed into `idxs`): same allocator and
loop as `link_indices_func`, but a missing source index aborts the loop —
the progress made so far is persisted and reported with
`status="error"` (the `target_start` field is left unset). -/
def link_indices_cli (f : String) (idxs : List Int) (g : String)
    (m : Mapping) : Except PyErr (LinkIndicesOutput × Mapping) := do
  let maxTarget ← findMaxTarget g m.leads (-1)
  match cliLinkLoop f g idxs ⟨m.leads, [], [], maxTarget + 1⟩ with
  | (st, none) =>
    pure ({ status := "success", linked := st.linked, skipped := st.skipped,
            target_start := if st.linked.isEmpty then none else some (maxTarget + 1),
            error := none }, ⟨st.leads⟩)
  | (st, some badIdx) =>
    pure ({ status := "error", linked := st.linked, skipped := st.skipped,
            target_start := none,
            error := some (cliLinkErrMsg badIdx st.linked st.skipped) }, ⟨st.leads⟩)

/-! ## The results-batch append step of the LLM `process` command -/

/-- The index-collection comprehensions of `process`
(`src/execution/llm/process.py`): the set of non-`None` `index` values of
a results list; `item.get` raises `AttributeError` on a non-dict item. -/
def collectIndices : List PyVal → Except PyErr (List PyVal)
  | [] => .ok []
  | item :: rest =>
    match item with
    | .dict d => do
      let s ← collectIndices rest
      let v := dictGet d "index"
      if isNull v then pure s else pure (v :: s)
    | _ => .error .attributeError

/-- Non-emptiness of the intersection of two embedded Python sets. -/
def setInterNonempty (a b : List PyVal) : Bool :=
  a.any (fun x => pyMem x b)

/-- Models the duplicate-index safety net and save of `process`
(`src/execution/llm/process.py` lines 276-299): load the existing results
file (a missing file reads as `[]`), collect the non-`None` `index`
values of the existing and the new batch, raise `ValueError` when the two
sets intersect — the raise happening before any write, an error result
carries no store and the on-disk file is untouched — and otherwise save
the concatenation `existing ++ new` to the results file. -/
def process_save_results (store : Store) (results_path : String)
    (all_results : List PyVal) : Except PyErr Store :=
  let existing_results := (fileLookup store results_path).getD []
  match collectIndices existing_results, collectIndices all_results with
  | .error e, _ => .error e
  | .ok _, .error e => .error e
  | .ok existing_indices, .ok new_indices =>
    if setInterNonempty existing_indices new_indices then
      .error (.valueError
        ("DUPLICATE INDEX ERROR: indices already exist in " ++ results_path))
    else
      .ok (fileSave store results_path (existing_results ++ all_results))

/-! ## The claimed registry-resolution semantics (for comparison) -/

/-- The where-filter resolution of a registered field as the claim (C5)
and spec §4.2 word it, stated as a second definition to compare with
`get_qualified_indices`: load the registered output file, collect the set
of its own-domain `index` values whose field equals the literal, then
translate those into the extraction's row domain via the lead records
that carry both the output file's registered index field and the
extraction's own index field.  Returns `none` when the field is not
registered (the legacy tier applies instead). -/
def qualifiedIndicesClaim (store : Store) (mapping : Mapping) (field : String)
    (value : PyVal) (index_field : String) : Option (List PyVal) :=
  let registry := load_registry store
  match assocGet registry.fields field with
  | some output_file =>
    let fileIndexField :=
      match assocGet registry.files output_file with
      | some info => info.indexField
      | none => index_field
    match fileLookup store (get_dataset_path output_file) with
    | none => some []
    | some llm_data =>
      let matching := llm_data.filterMap (fun item =>
        match item with
        | .dict d =>
          if pyEq (dictGet d field) value then some (dictGet d "index") else none
        | _ => none)
      some (mapping.leads.filterMap (fun lead =>
        if ¬ isNull (dictGet lead fileIndexField) ∧ ¬ isNull (dictGet lead index_field)
            ∧ pyMem (dictGet lead fileIndexField) matching
        then some (dictGet lead index_field) else none))
  | none => none

/-! ## Lemmas and claim theorems -/

/-- The value the `all` loop records for one element: the navigated value,
or `null` when the element's navigation raised (used to describe absorbed
per-element failures). -/
def absorb : Except PyErr PyVal → PyVal
  | .ok v => v
  | .error _ => .null

/-- Whether one element's navigation either succeeded or raised an
exception in the caught tuple. -/
def isOkOrCaught : Except PyErr PyVal → Bool
  | .ok _ => true
  | .error e => pyCaught e

theorem navigateAll_ok (rem : List Segment) (xs : List PyVal) (i : Nat)
    (h : ∀ x ∈ xs, isOkOrCaught (navigate_path x rem) = true) :
    navigateAll rem xs i =
      .ok ((xs.enumFrom i).map (fun p => PyVal.pair p.1 (absorb (navigate_path p.2 rem)))) := by
  induction xs generalizing i with
  | nil => simp [navigateAll]
  | cons x rest ih =>
    have hx := h x (by simp)
    have hr : ∀ y ∈ rest, isOkOrCaught (navigate_path y rem) = true :=
      fun y hy => h y (by simp [hy])
    cases hnav : navigate_path x rem with
    | ok v =>
      simp [navigateAll, hnav, ih i.succ hr, List.enumFrom, absorb, Except.map]
    | error e =>
      have hc : pyCaught e = true := by
        simpa [isOkOrCaught, hnav] using hx
      simp [navigateAll, hnav, hc, ih i.succ hr, List.enumFrom, absorb, Except.map]

theorem navigateAll_abort (rem : List Segment) (pre : List PyVal) (bad : PyVal)
    (post : List PyVal) (i : Nat) (e : PyErr)
    (hpre : ∀ x ∈ pre, isOkOrCaught (navigate_path x rem) = true)
    (hbad : navigate_path bad rem = .error e) (hec : pyCaught e = false) :
    navigateAll rem (pre ++ bad :: post) i = .error e := by
  induction pre generalizing i with
  | nil => simp [navigateAll, hbad, hec]
  | cons x rest ih =>
    have hx := hpre x (by simp)
    have hr : ∀ y ∈ rest, isOkOrCaught (navigate_path y rem) = true :=
      fun y hy => hpre y (by simp [hy])
    cases hnav : navigate_path x rem with
    | ok v => simp [navigateAll, hnav, ih (i + 1) hr, Except.map]
    | error e' =>
      have hc : pyCaught e' = true := by
        simpa [isOkOrCaught, hnav] using hx
      simp [navigateAll, hnav, hc, ih (i + 1) hr, Except.map]

/-- C1, counterexample: on the array `[{"x": 1}, "no"]`, evaluating the
path `[*].x` does not record a `null` for the second element's type
mismatch — the `ValueError` raised for a member access on a non-object is
not in the caught exception tuple, so the whole evaluation aborts with an
error instead of returning one pair per element. -/
theorem navigate_all_type_mismatch_aborts :
    navigate_path (.list [.dict [("x", .int 1)], .str "no"])
        [Segment.all, Segment.key "x"] =
      .error (.valueError "Expected object for key segment") := by
  simp only [navigate_path, navigateAll, dictGet, pyCaught]
  rfl

/-- C1 (amended): evaluating an `all` segment over an array maps the
remaining segments over each element in original order; a per-element
exception in the caught tuple `(KeyError, IndexError, TypeError)` — in
this code a fixed-index out-of-range, a missing member being no exception
at all (it navigates `None` and yields `null` only when it is the final
segment) — is recorded as a `null` at that element's position; but a
per-element type mismatch raises `ValueError`, which is not caught and
aborts the whole evaluation with that error. -/
theorem navigate_all_per_element (rem : List Segment) (xs : List PyVal) :
    ((∀ x ∈ xs, isOkOrCaught (navigate_path x rem) = true) →
      navigate_path (.list xs) (Segment.all :: rem) =
        .ok (.list (xs.enum.map
          (fun p => PyVal.pair p.1 (absorb (navigate_path p.2 rem)))))) ∧
    (∀ pre bad post msg, xs = pre ++ bad :: post →
      (∀ x ∈ pre, isOkOrCaught (navigate_path x rem) = true) →
      navigate_path bad rem = .error (.valueError msg) →
      navigate_path (.list xs) (Segment.all :: rem) =
        .error (.valueError msg)) := by
  constructor
  · intro h
    simp [navigate_path, navigateAll_ok rem xs 0 h, List.enum, Except.map]
  · intro pre bad post msg hxs hpre hbad
    subst hxs
    simp [navigate_path, Except.map,
      navigateAll_abort rem pre bad post 0 (.valueError msg) hpre hbad (by simp [pyCaught])]

/-- Witness for the amended C1 at a concrete input: both the absorbing
branch (missing member, out-of-range index) and the aborting branch
(member access on a string) at explicit arrays. -/
theorem navigate_all_per_element_witness :
    navigate_path (.list [.list [.int 7], .list [], .list [.int 9]])
        [Segment.all, Segment.index 0] =
      .ok (.list [.pair 0 (.int 7), .pair 1 .null, .pair 2 (.int 9)]) := by
  have h := (navigate_all_per_element [Segment.index 0]
      [.list [.int 7], .list [], .list [.int 9]]).1 ?_
  · rw [h]
    simp only [navigate_path, pyListIdx, absorb, List.enum, List.enumFrom, List.map]
    rfl
  · intro x hx
    simp only [List.mem_cons, List.not_mem_nil, or_false] at hx
    rcases hx with rfl | rfl | rfl <;>
      simp only [navigate_path, pyListIdx, isOkOrCaught, pyCaught] <;> rfl

theorem pyGeInt_nat_lt {i len : Nat} (h : i < len) :
    pyGeInt (PyVal.int (i : Int)) (len : Int) = .ok false := by
  simp only [pyGeInt, pyNum, ge_iff_le, Except.ok.injEq, decide_eq_false_iff_not, not_le]
  exact_mod_cast h

theorem pyListGet_nat (data : List PyVal) (i : Nat) (hi : i < data.length) :
    pyListGet data (.int (i : Int)) = .ok (data.getD i PyVal.null) := by
  have hd : data.getD i PyVal.null = data.get ⟨i, hi⟩ := by
    rw [List.getD_eq_getElem data PyVal.null hi]
    simp
  simp only [pyListGet, pyNum, pyListIdx]
  rw [dif_pos ⟨by omega, by simpa using hi⟩]
  simp [List.getD, List.getElem?_eq_getElem hi]

/-- The value recorded for one row of a single-path extraction whose
parsed path starts with `all`: navigate the remaining segments, `null`
when the navigation raises. -/
def rowValue (restSegs : List Segment) (row : PyVal) : PyVal :=
  absorb (navigate_path row restSegs)

theorem extractLoop_nat_list (data : List PyVal) (p : String)
    (restSegs : List Segment) (hp : parse_path p = .ok (Segment.all :: restSegs))
    (idxs : List Nat) (h : ∀ i ∈ idxs, i < data.length) :
    extractLoop data (some p) none (idxs.map (fun (i : Nat) => PyVal.int (i : Int))) =
      .ok (idxs.map (fun (i : Nat) =>
        (⟨PyVal.int (i : Int), rowValue restSegs (data.getD i PyVal.null)⟩ : ExtractItem))) := by
  induction idxs with
  | nil => simp [extractLoop]
  | cons i rest ih =>
    have hi : i < data.length := h i (by simp)
    have hr : ∀ j ∈ rest, j < data.length := fun j hj => h j (by simp [hj])
    simp only [List.map_cons, extractLoop, pyGeInt_nat_lt hi, pyListGet_nat data i hi,
      Option.getD_some, hp, fieldsTruthy, ih hr, rowValue, absorb]
    rfl

/-- C6: a single-path extraction whose path starts with the `all` segment
`[*]` (such as `[*].x`), with no where filter, offset or limit, succeeds
and returns exactly one entry per dataset row, indexed `0..N-1` in
ascending order, the value being the row's navigation result or `null`
for every row where the per-row path evaluation fails. -/
theorem extract_all_rows (store : Store) (source : String) (p : String)
    (rows : List PyVal) (restSegs : List Segment)
    (hfile : fileLookup store (get_dataset_path source) = some rows)
    (hparse : parse_path p = .ok (Segment.all :: restSegs)) :
    extract_data store source (some p) none none none none =
      ⟨"success",
        (List.range rows.length).map (fun (i : Nat) =>
          (⟨PyVal.int (i : Int), rowValue restSegs (rows.getD i PyVal.null)⟩ : ExtractItem)),
        rows.length, none⟩ ∧
    (extract_data store source (some p) none none none none).count = rows.length ∧
    (extract_data store source (some p) none none none none).data.map ExtractItem.index
      = (List.range rows.length).map (fun (i : Nat) => PyVal.int (i : Int)) := by
  have hp0 : p ≠ "" := by
    intro h0
    rw [h0] at hparse
    simp [parse_path, parsePathAux, flushKey] at hparse
  have hbody : extractBody store source (some p) none none none none rows =
      .ok ((List.range rows.length).map (fun (i : Nat) =>
        (⟨PyVal.int (i : Int), rowValue restSegs (rows.getD i PyVal.null)⟩ : ExtractItem))) := by
    have := extractLoop_nat_list rows p restSegs hparse (List.range rows.length)
      (by intro i hi; simpa using hi)
    simpa [extractBody] using this
  have hmain : extract_data store source (some p) none none none none =
      ⟨"success",
        (List.range rows.length).map (fun (i : Nat) =>
          (⟨PyVal.int (i : Int), rowValue restSegs (rows.getD i PyVal.null)⟩ : ExtractItem)),
        rows.length, none⟩ := by
    simp [extract_data, strFalsy, hp0, fieldsTruthy, hfile, hbody]
  refine ⟨hmain, ?_, ?_⟩
  · rw [hmain]
  · rw [hmain]
    simp [List.map_map, Function.comp]

/-- Witness for C6 at the spec's §8 example: dataset `postData` of three
post objects, extracted over `[*].content`. -/
theorem extract_all_rows_witness :
    extract_data
      ⟨[("postData.json",
          [.dict [("content", .str "a")], .dict [("content", .str "b")],
           .dict [("content", .str "c")]])], none, none⟩
      "postData" (some "[*].content") none none none none =
      ⟨"success",
        [⟨.int 0, .str "a"⟩, ⟨.int 1, .str "b"⟩, ⟨.int 2, .str "c"⟩],
        3, none⟩ := by
  have h := (extract_all_rows
      ⟨[("postData.json",
          [.dict [("content", .str "a")], .dict [("content", .str "b")],
           .dict [("content", .str "c")]])], none, none⟩
      "postData" "[*].content"
      [.dict [("content", .str "a")], .dict [("content", .str "b")],
       .dict [("content", .str "c")]]
      [Segment.key "content"]
      (by rfl) (by rfl)).1
  rw [h]
  simp only [List.length_cons, List.length_nil, List.range, List.range.loop, List.map,
    List.getD, List.get?_cons_zero, List.get?_cons_succ, Option.getD_some,
    rowValue, navigate_path, dictGet, absorb]
  rfl

/-! ## Lemmas on the linking engine -/

theorem dictGet_dictSet_self (d : List (String × PyVal)) (k : String) (v : PyVal) :
    dictGet (dictSet d k v) k = v := by
  induction d with
  | nil => simp [dictSet, dictGet]
  | cons p rest ih =>
    obtain ⟨pk, pv⟩ := p
    by_cases h : pk = k
    · simp [dictSet, dictGet, h]
    · simp [dictSet, dictGet, h, ih]

theorem dictGet_dictSet_ne (d : List (String × PyVal)) {k k' : String} (v : PyVal)
    (h : k' ≠ k) : dictGet (dictSet d k v) k' = dictGet d k' := by
  have h' : ¬ (k = k') := fun hh => h hh.symm
  induction d with
  | nil => simp [dictSet, dictGet, h']
  | cons p rest ih =>
    obtain ⟨pk, pv⟩ := p
    by_cases hp : pk = k
    · subst hp
      simp [dictSet, dictGet, h']
    · simp [dictSet, dictGet, hp, ih]

/-- A value an index field may legitimately hold: absent (`None`) or an
integer row index (the data model of the spec). -/
def isIntOrNull : PyVal → Bool
  | .null => true
  | .int _ => true
  | _ => false

/-- Every lead's value of the given index field is `None` or an integer. -/
def wellTypedG (g : String) (leads : List Lead) : Bool :=
  leads.all (fun lead => isIntOrNull (dictGet lead g))

theorem wellTypedG_cons {g : String} {lead : Lead} {rest : List Lead}
    (h : wellTypedG g (lead :: rest) = true) :
    isIntOrNull (dictGet lead g) = true ∧ wellTypedG g rest = true := by
  simpa [wellTypedG, Bool.and_eq_true] using h

theorem firstMatchPos_lt {f : String} {i : Int} {leads : List Lead} {pos : Nat}
    (h : firstMatchPos f i leads = some pos) : pos < leads.length := by
  induction leads generalizing pos with
  | nil => simp [firstMatchPos] at h
  | cons lead rest ih =>
    by_cases hm : pyEqInt (dictGet lead f) i = true
    · simp only [firstMatchPos, hm, if_true, Option.some.injEq] at h
      simp only [List.length_cons]
      omega
    · cases hrec : firstMatchPos f i rest with
      | none => simp [firstMatchPos, hm, hrec] at h
      | some p =>
        have h' : pos = p + 1 := by
          simp [firstMatchPos, hm, hrec] at h
          omega
        subst h'
        simp only [List.length_cons]
        exact Nat.succ_lt_succ (ih hrec)

theorem firstMatchPos_get {f : String} {i : Int} {leads : List Lead} {pos : Nat}
    (h : firstMatchPos f i leads = some pos) :
    ∃ lead, leads.get? pos = some lead ∧ pyEqInt (dictGet lead f) i = true := by
  induction leads generalizing pos with
  | nil => simp [firstMatchPos] at h
  | cons lead rest ih =>
    by_cases hm : pyEqInt (dictGet lead f) i = true
    · simp only [firstMatchPos, hm, if_true, Option.some.injEq] at h
      subst h
      exact ⟨lead, rfl, hm⟩
    · cases hrec : firstMatchPos f i rest with
      | none => simp [firstMatchPos, hm, hrec] at h
      | some p =>
        have h' : pos = p + 1 := by
          simp [firstMatchPos, hm, hrec] at h
          omega
        subst h'
        simpa using ih hrec

/-- `firstMatchPos` only looks at the source-index-field value of each
lead: two lead lists whose `f` values agree position-wise have the same
first match. -/
theorem firstMatchPos_ext {f : String} {i : Int} (l₁ l₂ : List Lead)
    (h : ∀ pos, (l₁.get? pos).map (fun lead => dictGet lead f)
      = (l₂.get? pos).map (fun lead => dictGet lead f)) :
    firstMatchPos f i l₁ = firstMatchPos f i l₂ := by
  induction l₁ generalizing l₂ with
  | nil =>
    cases l₂ with
    | nil => rfl
    | cons b bs => simpa using h 0
  | cons a as ih =>
    cases l₂ with
    | nil => simpa using h 0
    | cons b bs =>
      have h0 : dictGet a f = dictGet b f := by simpa using h 0
      have ht : ∀ pos, (as.get? pos).map (fun lead => dictGet lead f)
          = (bs.get? pos).map (fun lead => dictGet lead f) := fun pos => by
        simpa using h (pos + 1)
      simp [firstMatchPos, h0, ih bs ht]

/-- The allocator scan succeeds on well-typed leads and returns a value
that is an upper bound of the accumulator and of every integer value of
the field, attained by the accumulator or by some lead. -/
theorem findMaxTarget_ok (g : String) (leads : List Lead) (acc : Int)
    (h : wellTypedG g leads = true) :
    ∃ r, findMaxTarget g leads acc = .ok r ∧ acc ≤ r ∧
      (∀ lead ∈ leads, ∀ n, dictGet lead g = .int n → n ≤ r) ∧
      (r = acc ∨ ∃ lead ∈ leads, dictGet lead g = .int r) := by
  induction leads generalizing acc with
  | nil => exact ⟨acc, rfl, le_refl _, by simp, Or.inl rfl⟩
  | cons lead rest ih =>
    obtain ⟨hhd, hrest⟩ := wellTypedG_cons h
    cases hv : dictGet lead g with
    | null =>
      obtain ⟨r, hr, hacc, hub, hat⟩ := ih acc hrest
      refine ⟨r, ?_, hacc, ?_, ?_⟩
      · simpa [findMaxTarget, hv, pyNum, isNull] using hr
      · intro l hl n hn
        rcases List.mem_cons.1 hl with rfl | hl
        · rw [hv] at hn; cases hn
        · exact hub l hl n hn
      · rcases hat with h1 | ⟨l, hl, hlr⟩
        · exact Or.inl h1
        · exact Or.inr ⟨l, List.mem_cons_of_mem _ hl, hlr⟩
    | int n =>
      obtain ⟨r, hr, hacc, hub, hat⟩ := ih (if n > acc then n else acc) hrest
      have haccr : acc ≤ r ∧ n ≤ r := by
        by_cases hna : n > acc
        · rw [if_pos hna] at hacc; omega
        · rw [if_neg hna] at hacc; omega
      refine ⟨r, ?_, haccr.1, ?_, ?_⟩
      · simpa [findMaxTarget, hv, pyNum, isNull] using hr
      · intro l hl m hm
        rcases List.mem_cons.1 hl with rfl | hl
        · rw [hv] at hm
          cases hm
          exact haccr.2
        · exact hub l hl m hm
      · rcases hat with h1 | ⟨l, hl, hlr⟩
        · by_cases hna : n > acc
          · rw [if_pos hna] at h1
            exact Or.inr ⟨lead, List.mem_cons_self _ _, h1 ▸ hv⟩
          · rw [if_neg hna] at h1
            exact Or.inl h1
        · exact Or.inr ⟨l, List.mem_cons_of_mem _ hl, hlr⟩
    | bool b => rw [hv] at hhd; simp [isIntOrNull] at hhd
    | str s => rw [hv] at hhd; simp [isIntOrNull] at hhd
    | list xs => rw [hv] at hhd; simp [isIntOrNull] at hhd
    | dict dd => rw [hv] at hhd; simp [isIntOrNull] at hhd
    | pair i v => rw [hv] at hhd; simp [isIntOrNull] at hhd

/-- The loop invariant of a link run, relative to the original leads `L0`
and the allocator base `maxT`: the number of leads is preserved; the
allocator sits one past the last assigned value; the `k`-th linked index
first-matched an originally-`None` lead whose target field now holds
`maxT + 1 + k`; every position not first-matched by a linked index is
untouched; and every current target value is well typed and below the
allocator. -/
def LinkInv (f g : String) (L0 : List Lead) (maxT : Int) (st : LinkState) : Prop :=
  st.leads.length = L0.length ∧
  st.next = maxT + 1 + st.linked.length ∧
  (∀ k i, st.linked.get? k = some i → ∃ pos lead,
    firstMatchPos f i L0 = some pos ∧
    L0.get? pos = some lead ∧ dictGet lead g = .null ∧
    st.leads.get? pos = some (dictSet lead g (.int (maxT + 1 + (k : Int))))) ∧
  (∀ pos, (∀ k i, st.linked.get? k = some i → firstMatchPos f i L0 ≠ some pos) →
    st.leads.get? pos = L0.get? pos) ∧
  (∀ pos lead, st.leads.get? pos = some lead →
    isIntOrNull (dictGet lead g) = true ∧ ∀ n, dictGet lead g = .int n → n < st.next)

theorem LinkInv_fpointwise {f g : String} {L0 : List Lead} {maxT : Int}
    {st : LinkState} (hfg : f ≠ g) (hinv : LinkInv f g L0 maxT st) (pos : Nat) :
    (st.leads.get? pos).map (fun lead => dictGet lead f)
      = (L0.get? pos).map (fun lead => dictGet lead f) := by
  obtain ⟨hlen, hnext, hA3, hA4, hA5⟩ := hinv
  by_cases hhit : ∃ k i, st.linked.get? k = some i ∧ firstMatchPos f i L0 = some pos
  · obtain ⟨k, i, hk, hkpos⟩ := hhit
    obtain ⟨pos', lead, hfm, hL0, hnull, hst⟩ := hA3 k i hk
    rw [hfm] at hkpos
    cases hkpos
    rw [hst, hL0]
    simp [dictGet_dictSet_ne _ _ hfg]
  · push_neg at hhit
    rw [hA4 pos (fun k i hk => hhit k i hk)]

theorem LinkInv_firstMatch {f g : String} {L0 : List Lead} {maxT : Int}
    {st : LinkState} (hfg : f ≠ g) (hinv : LinkInv f g L0 maxT st) (i : Int) :
    firstMatchPos f i st.leads = firstMatchPos f i L0 :=
  firstMatchPos_ext _ _ (fun pos => LinkInv_fpointwise hfg hinv pos)

theorem LinkInv_init (f g : String) (L0 : List Lead) (maxT : Int)
    (hub : ∀ lead ∈ L0, ∀ n, dictGet lead g = .int n → n ≤ maxT)
    (hwt : wellTypedG g L0 = true) :
    LinkInv f g L0 maxT ⟨L0, [], [], maxT + 1⟩ := by
  refine ⟨rfl, by simp, ?_, ?_, ?_⟩
  · intro k i hk
    simp at hk
  · intro pos _
    rfl
  · intro pos lead hget
    have hmem : lead ∈ L0 := List.get?_mem hget
    refine ⟨List.all_eq_true.1 hwt lead hmem, fun n hn => ?_⟩
    have := hub lead hmem n hn
    show n < maxT + 1
    omega

theorem isNull_iff (v : PyVal) : isNull v = true ↔ v = .null := by
  cases v <;> simp [isNull]

theorem linkStep_eq_none {f g : String} {st : LinkState} {idx : Int}
    (h : firstMatchPos f idx st.leads = none) : linkStep f g st idx = st := by
  simp [linkStep, h]

theorem linkStep_eq_skip {f g : String} {st : LinkState} {idx : Int} {pos : Nat}
    {lead : Lead} (hfm : firstMatchPos f idx st.leads = some pos)
    (hget : st.leads.get? pos = some lead)
    (hnn : isNull (dictGet lead g) = false) :
    linkStep f g st idx = { st with skipped := st.skipped ++ [idx] } := by
  have hget2 : st.leads[pos]? = some lead := by
    rw [← List.get?_eq_getElem?]
    exact hget
  simp [linkStep, hfm, hget2, hnn]

theorem linkStep_eq_link {f g : String} {st : LinkState} {idx : Int} {pos : Nat}
    {lead : Lead} (hfm : firstMatchPos f idx st.leads = some pos)
    (hget : st.leads.get? pos = some lead)
    (hnull : isNull (dictGet lead g) = true) :
    linkStep f g st idx =
      ⟨st.leads.set pos (dictSet lead g (.int st.next)),
        st.linked ++ [idx], st.skipped, st.next + 1⟩ := by
  have hget2 : st.leads[pos]? = some lead := by
    rw [← List.get?_eq_getElem?]
    exact hget
  simp [linkStep, hfm, hget2, hnull]

theorem LinkInv_step {f g : String} (hfg : f ≠ g) {L0 : List Lead} {maxT : Int}
    {st : LinkState} (hinv : LinkInv f g L0 maxT st) (idx : Int) :
    LinkInv f g L0 maxT (linkStep f g st idx) := by
  have hstable := LinkInv_firstMatch hfg hinv idx
  obtain ⟨hlen, hnext, hA3, hA4, hA5⟩ := hinv
  cases hfm : firstMatchPos f idx st.leads with
  | none => rw [linkStep_eq_none hfm]; exact ⟨hlen, hnext, hA3, hA4, hA5⟩
  | some pos =>
    have hposlt : pos < st.leads.length := firstMatchPos_lt hfm
    obtain ⟨lead, hget2, hmatch⟩ := firstMatchPos_get hfm
    by_cases hnull : isNull (dictGet lead g) = true
    · -- the lead's target field is still None: assign and advance
      rw [linkStep_eq_link hfm hget2 hnull]
      have hgnull : dictGet lead g = .null := (isNull_iff _).1 hnull
      -- the matched position cannot have been assigned earlier in this run
      have hfresh : ∀ k i, st.linked.get? k = some i →
          firstMatchPos f i L0 ≠ some pos := by
        intro k i hk hcon
        obtain ⟨pos', lead', hfm', hL0', hnull', hst'⟩ := hA3 k i hk
        rw [hfm'] at hcon
        cases hcon
        rw [hst'] at hget2
        cases hget2
        rw [dictGet_dictSet_self] at hgnull
        cases hgnull
      have huntouched : st.leads.get? pos = L0.get? pos := hA4 pos hfresh
      have hL0pos : L0.get? pos = some lead := huntouched ▸ hget2
      refine ⟨?_, ?_, ?_, ?_, ?_⟩
      · simpa [List.length_set] using hlen
      · simp only [List.length_append, List.length_cons, List.length_nil]
        push_cast
        omega
      · intro k i hk
        by_cases hklt : k < st.linked.length
        · rw [List.get?_append hklt] at hk
          obtain ⟨pos', lead', hfm', hL0', hnull', hst'⟩ := hA3 k i hk
          have hne : pos' ≠ pos := by
            intro he
            subst he
            rw [hst'] at hget2
            cases hget2
            rw [dictGet_dictSet_self] at hgnull
            cases hgnull
          exact ⟨pos', lead', hfm', hL0', hnull',
            by rw [List.get?_set_ne _ _ (fun he => hne he.symm)]; exact hst'⟩
        · have hklt2 : k < st.linked.length + 1 := by
            rcases List.get?_eq_some.1 hk with ⟨hlt, _⟩
            simpa [List.length_append] using hlt
          have hkeq : k = st.linked.length := by omega
          subst hkeq
          rw [List.get?_concat_length] at hk
          cases hk
          rw [hstable] at hfm
          refine ⟨pos, lead, hfm, hL0pos, hgnull, ?_⟩
          rw [List.get?_set_eq_of_lt _ hposlt, hnext]
      · intro pos' hmiss
        have hpos'ne : pos' ≠ pos := by
          intro he
          subst he
          have hidx : (st.linked ++ [idx]).get? st.linked.length = some idx :=
            List.get?_concat_length _ _
          have := hmiss st.linked.length idx hidx
          rw [hstable] at hfm
          exact this hfm
        rw [List.get?_set_ne _ _ (fun he => hpos'ne he.symm)]
        refine hA4 pos' (fun k i hk => ?_)
        have hklt : k < st.linked.length := by
          rcases List.get?_eq_some.1 hk with ⟨hlt, _⟩
          exact hlt
        exact hmiss k i (by rw [List.get?_append hklt]; exact hk)
      · intro pos' lead' hget'
        by_cases he : pos' = pos
        · subst he
          rw [List.get?_set_eq_of_lt _ hposlt] at hget'
          cases hget'
          refine ⟨by rw [dictGet_dictSet_self]; rfl, fun n hn => ?_⟩
          rw [dictGet_dictSet_self] at hn
          cases hn
          show st.next < st.next + 1
          omega
        · rw [List.get?_set_ne _ _ (fun h2 => he h2.symm)] at hget'
          obtain ⟨h1, h2⟩ := hA5 pos' lead' hget'
          refine ⟨h1, fun n hn => ?_⟩
          have := h2 n hn
          show n < st.next + 1
          omega
    · -- already linked: only the skipped list grows
      rw [linkStep_eq_skip hfm hget2 (by simpa using hnull)]
      exact ⟨hlen, hnext, hA3, hA4, hA5⟩

theorem LinkInv_fold {f g : String} (hfg : f ≠ g) {L0 : List Lead} {maxT : Int} :
    ∀ (idxs : List Int) (st : LinkState), LinkInv f g L0 maxT st →
      LinkInv f g L0 maxT (idxs.foldl (linkStep f g) st)
  | [], _, h => h
  | idx :: rest, st, h =>
    LinkInv_fold hfg rest (linkStep f g st idx) (LinkInv_step hfg h idx)

/-- The single-call specification of `link_indices_func`: on a mapping
whose target-field values are well typed, with distinct source and
target index fields, the call succeeds; allocation starts at `maxT + 1`;
the `k`-th linked index writes `maxT + 1 + k` into the first-matching,
previously-`None` lead; every position not first-matched by a linked
index keeps its lead unchanged; and the final mapping is well typed with
maximum target value `maxT + |linked|`. -/
theorem link_run_spec (f g : String) (hfg : f ≠ g) (m : Mapping)
    (idxs : List Int) (hwt : wellTypedG g m.leads = true) :
    ∃ maxT out m', findMaxTarget g m.leads (-1) = .ok maxT ∧ (-1 : Int) ≤ maxT ∧
      (∀ lead ∈ m.leads, ∀ n, dictGet lead g = .int n → n ≤ maxT) ∧
      link_indices_func f idxs g m = .ok (out, m') ∧
      out.status = "success" ∧ out.error = none ∧
      out.target_start = (if out.linked.isEmpty then none else some (maxT + 1)) ∧
      m'.leads.length = m.leads.length ∧
      (∀ k i, out.linked.get? k = some i → ∃ pos lead,
        firstMatchPos f i m.leads = some pos ∧
        m.leads.get? pos = some lead ∧ dictGet lead g = .null ∧
        m'.leads.get? pos = some (dictSet lead g (.int (maxT + 1 + (k : Int))))) ∧
      (∀ pos, (∀ k i, out.linked.get? k = some i →
          firstMatchPos f i m.leads ≠ some pos) →
        m'.leads.get? pos = m.leads.get? pos) ∧
      (∀ pos lead, m'.leads.get? pos = some lead →
        isIntOrNull (dictGet lead g) = true ∧
        ∀ n, dictGet lead g = .int n → n < maxT + 1 + out.linked.length) ∧
      wellTypedG g m'.leads = true ∧
      findMaxTarget g m'.leads (-1) = .ok (maxT + out.linked.length) := by
  obtain ⟨maxT, hmax, hneg, hub, hat⟩ := findMaxTarget_ok g m.leads (-1) hwt
  set st := idxs.foldl (linkStep f g) ⟨m.leads, [], [], maxT + 1⟩ with hst
  have hinv : LinkInv f g m.leads maxT st :=
    LinkInv_fold hfg idxs _ (LinkInv_init f g m.leads maxT hub hwt)
  obtain ⟨hlen, hnext, hA3, hA4, hA5⟩ := hinv
  have hcall : link_indices_func f idxs g m =
      .ok ({ status := "success", linked := st.linked, skipped := st.skipped,
             target_start := if st.linked.isEmpty then none else some (maxT + 1),
             error := none }, ⟨st.leads⟩) := by
    rw [link_indices_func, hmax]
    rfl
  have hwt' : wellTypedG g st.leads = true := by
    refine List.all_eq_true.2 (fun lead hmem => ?_)
    obtain ⟨pos, hpos⟩ := List.get?_of_mem hmem
    exact (hA5 pos lead hpos).1
  have hA5' : ∀ pos lead, st.leads.get? pos = some lead →
      isIntOrNull (dictGet lead g) = true ∧
      ∀ n, dictGet lead g = .int n → n < maxT + 1 + st.linked.length := by
    intro pos lead hpos
    obtain ⟨h1, h2⟩ := hA5 pos lead hpos
    exact ⟨h1, fun n hn => hnext ▸ h2 n hn⟩
  have hfinalmax : findMaxTarget g st.leads (-1) =
      .ok (maxT + st.linked.length) := by
    obtain ⟨r, hr, hr1, hrub, hrat⟩ := findMaxTarget_ok g st.leads (-1) hwt'
    by_cases hemp : st.linked = []
    · have hsame : st.leads = m.leads := by
        refine List.ext (fun pos => hA4 pos ?_)
        intro k i hk
        rw [hemp] at hk
        simp at hk
      rw [hsame, hmax, hemp]
      simp
    · have hlenpos : 0 < st.linked.length := List.length_pos.2 hemp
      have hble : r ≤ maxT + st.linked.length := by
        rcases hrat with h1 | ⟨lead, hmem, hval⟩
        · omega
        · obtain ⟨pos, hpos⟩ := List.get?_of_mem hmem
          have := (hA5' pos lead hpos).2 r hval
          omega
      have hbge : maxT + st.linked.length ≤ r := by
        have hlt : st.linked.length - 1 < st.linked.length := Nat.sub_lt hlenpos one_pos
        obtain ⟨i, hi⟩ : ∃ i, st.linked.get? (st.linked.length - 1) = some i :=
          ⟨_, List.get?_eq_get hlt⟩
        obtain ⟨pos, lead, hfm, hL0, hnull, hset⟩ := hA3 _ i hi
        have hvlast : dictGet (dictSet lead g
            (.int (maxT + 1 + ((st.linked.length - 1 : Nat) : Int)))) g
            = .int (maxT + 1 + ((st.linked.length - 1 : Nat) : Int)) :=
          dictGet_dictSet_self _ _ _
        have hmem : dictSet lead g
            (.int (maxT + 1 + ((st.linked.length - 1 : Nat) : Int))) ∈ st.leads :=
          List.get?_mem hset
        have := hrub _ hmem _ hvlast
        omega
      have : r = maxT + st.linked.length := le_antisymm hble hbge
      rw [← this]
      exact hr
  refine ⟨maxT, _, _, hmax, hneg, hub, hcall, rfl, rfl, rfl, hlen, hA3, hA4,
    hA5', hwt', hfinalmax⟩

/-- C2: for link operations on a well-typed mapping with distinct source
and target index fields, each call begins allocating at
`(max existing target value) + 1` — at `0` when no lead carries the
field — and the `k`-th linked index of a call is assigned exactly
`start + k`: assigned indices are strictly increasing and pairwise
distinct within a call, land on pairwise distinct leads, never collide
with a pre-existing value, and a repeated call continues strictly above
everything the first call assigned. -/
theorem link_indices_monotonic_unique (f g : String) (m : Mapping)
    (idxs₁ idxs₂ : List Int) (hfg : f ≠ g)
    (hwt : wellTypedG g m.leads = true) :
    ∃ maxT out₁ m₁ out₂ m₂,
      findMaxTarget g m.leads (-1) = .ok maxT ∧
      link_indices_func f idxs₁ g m = .ok (out₁, m₁) ∧
      link_indices_func f idxs₂ g m₁ = .ok (out₂, m₂) ∧
      out₁.target_start = (if out₁.linked.isEmpty then none else some (maxT + 1)) ∧
      ((∀ lead ∈ m.leads, dictGet lead g = .null) → maxT = -1) ∧
      (∀ lead ∈ m.leads, ∀ n, dictGet lead g = .int n → n ≤ maxT) ∧
      (∀ k i, out₁.linked.get? k = some i → ∃ pos lead,
        firstMatchPos f i m.leads = some pos ∧ m.leads.get? pos = some lead ∧
        dictGet lead g = .null ∧
        m₁.leads.get? pos = some (dictSet lead g (.int (maxT + 1 + (k : Int))))) ∧
      (∀ k₁ i₁ k₂ i₂ pos, out₁.linked.get? k₁ = some i₁ →
        out₁.linked.get? k₂ = some i₂ →
        firstMatchPos f i₁ m.leads = some pos →
        firstMatchPos f i₂ m.leads = some pos → k₁ = k₂) ∧
      out₂.target_start =
        (if out₂.linked.isEmpty then none
         else some (maxT + out₁.linked.length + 1)) ∧
      (∀ k i, out₂.linked.get? k = some i → ∃ pos lead,
        firstMatchPos f i m₁.leads = some pos ∧ m₁.leads.get? pos = some lead ∧
        dictGet lead g = .null ∧
        m₂.leads.get? pos = some (dictSet lead g
          (.int (maxT + out₁.linked.length + 1 + (k : Int))))) := by
  obtain ⟨maxT, out₁, m₁, hmax, hneg, hub, hcall₁, _, _, hts₁, hlen₁, hA3₁, hA4₁,
    hA5₁, hwt₁, hfinal₁⟩ := link_run_spec f g hfg m idxs₁ hwt
  obtain ⟨maxT₂, out₂, m₂, hmax₂, _, _, hcall₂, _, _, hts₂, _, hA3₂, _, _, _, _⟩ :=
    link_run_spec f g hfg m₁ idxs₂ hwt₁
  have hmeq : maxT₂ = maxT + out₁.linked.length := by
    rw [hfinal₁] at hmax₂
    injection hmax₂ with h
    exact h.symm
  refine ⟨maxT, out₁, m₁, out₂, m₂, hmax, hcall₁, hcall₂, hts₁, ?_, hub, hA3₁,
    ?_, ?_, ?_⟩
  · intro hall
    obtain ⟨r, hr, hr1, _, hrat⟩ := findMaxTarget_ok g m.leads (-1) hwt
    rw [hmax] at hr
    cases hr
    rcases hrat with h1 | ⟨lead, hmem, hval⟩
    · exact h1
    · rw [hall lead hmem] at hval
      cases hval
  · intro k₁ i₁ k₂ i₂ pos hk₁ hk₂ hp₁ hp₂
    obtain ⟨pos₁, lead₁, hfm₁, hm₁, hnull₁, hset₁⟩ := hA3₁ k₁ i₁ hk₁
    obtain ⟨pos₂, lead₂, hfm₂, hm₂, hnull₂, hset₂⟩ := hA3₁ k₂ i₂ hk₂
    rw [hp₁] at hfm₁
    rw [hp₂] at hfm₂
    cases hfm₁
    cases hfm₂
    rw [hm₁] at hm₂
    cases hm₂
    rw [hset₁] at hset₂
    injection hset₂ with hset₂
    have hv := congrArg (fun d => dictGet d g) hset₂
    simp only [dictGet_dictSet_self] at hv
    injection hv with hv
    omega
  · rw [hts₂, hmeq]
  · intro k i hk
    obtain ⟨pos, lead, hfm, hm, hnull, hset⟩ := hA3₂ k i hk
    refine ⟨pos, lead, hfm, hm, hnull, ?_⟩
    rw [hset, hmeq]

/-- Witness for C2 at a concrete run: three leads, a first call linking
rows 0 and 2 and a second call linking row 1. -/
theorem link_indices_monotonic_unique_witness :
    ∃ maxT out₁ m₁ out₂ m₂,
      findMaxTarget "profileIndex"
        (Mapping.mk [[("postIndex", .int 0)], [("postIndex", .int 1)],
          [("postIndex", .int 2)]]).leads (-1) = .ok maxT ∧
      link_indices_func "postIndex" [0, 2] "profileIndex"
        ⟨[[("postIndex", .int 0)], [("postIndex", .int 1)],
          [("postIndex", .int 2)]]⟩ = .ok (out₁, m₁) ∧
      link_indices_func "postIndex" [1] "profileIndex" m₁ = .ok (out₂, m₂) ∧
      out₁.target_start = (if out₁.linked.isEmpty then none else some (maxT + 1)) ∧
      ((∀ lead ∈ (Mapping.mk [[("postIndex", .int 0)], [("postIndex", .int 1)],
          [("postIndex", .int 2)]]).leads, dictGet lead "profileIndex" = .null) →
        maxT = -1) ∧
      (∀ lead ∈ (Mapping.mk [[("postIndex", .int 0)], [("postIndex", .int 1)],
          [("postIndex", .int 2)]]).leads, ∀ n,
        dictGet lead "profileIndex" = .int n → n ≤ maxT) ∧
      (∀ k i, out₁.linked.get? k = some i → ∃ pos lead,
        firstMatchPos "postIndex" i (Mapping.mk [[("postIndex", .int 0)],
          [("postIndex", .int 1)], [("postIndex", .int 2)]]).leads = some pos ∧
        (Mapping.mk [[("postIndex", .int 0)], [("postIndex", .int 1)],
          [("postIndex", .int 2)]]).leads.get? pos = some lead ∧
        dictGet lead "profileIndex" = .null ∧
        m₁.leads.get? pos = some (dictSet lead "profileIndex"
          (.int (maxT + 1 + (k : Int))))) ∧
      (∀ k₁ i₁ k₂ i₂ pos, out₁.linked.get? k₁ = some i₁ →
        out₁.linked.get? k₂ = some i₂ →
        firstMatchPos "postIndex" i₁ (Mapping.mk [[("postIndex", .int 0)],
          [("postIndex", .int 1)], [("postIndex", .int 2)]]).leads = some pos →
        firstMatchPos "postIndex" i₂ (Mapping.mk [[("postIndex", .int 0)],
          [("postIndex", .int 1)], [("postIndex", .int 2)]]).leads = some pos →
        k₁ = k₂) ∧
      out₂.target_start =
        (if out₂.linked.isEmpty then none
         else some (maxT + out₁.linked.length + 1)) ∧
      (∀ k i, out₂.linked.get? k = some i → ∃ pos lead,
        firstMatchPos "postIndex" i m₁.leads = some pos ∧
        m₁.leads.get? pos = some lead ∧
        dictGet lead "profileIndex" = .null ∧
        m₂.leads.get? pos = some (dictSet lead "profileIndex"
          (.int (maxT + out₁.linked.length + 1 + (k : Int))))) :=
  link_indices_monotonic_unique "postIndex" "profileIndex"
    ⟨[[("postIndex", .int 0)], [("postIndex", .int 1)], [("postIndex", .int 2)]]⟩
    [0, 2] [1] (by decide) (by rfl)

/-- C10 (frame): a link operation on a well-typed mapping with distinct
source and target index fields preserves the number and order of leads;
no key other than the target index field changes in any lead; a position
not first-matched by some linked source index keeps its lead identical
(so skipped and unmatched indices change nothing); and each linked index
changes exactly its first-matching lead, by setting that lead's target
index field. -/
theorem link_indices_frame (f g : String) (m : Mapping) (idxs : List Int)
    (hfg : f ≠ g) (hwt : wellTypedG g m.leads = true) :
    ∃ out m', link_indices_func f idxs g m = .ok (out, m') ∧
      m'.leads.length = m.leads.length ∧
      (∀ pos k', k' ≠ g →
        (m'.leads.get? pos).map (fun lead => dictGet lead k')
          = (m.leads.get? pos).map (fun lead => dictGet lead k')) ∧
      (∀ pos, (∀ k i, out.linked.get? k = some i →
          firstMatchPos f i m.leads ≠ some pos) →
        m'.leads.get? pos = m.leads.get? pos) ∧
      (∀ k i, out.linked.get? k = some i → ∃ pos lead v,
        firstMatchPos f i m.leads = some pos ∧ m.leads.get? pos = some lead ∧
        dictGet lead g = .null ∧
        m'.leads.get? pos = some (dictSet lead g (.int v))) := by
  obtain ⟨maxT, out, m', hmax, hneg, hub, hcall, _, _, _, hlen, hA3, hA4, _, _, _⟩ :=
    link_run_spec f g hfg m idxs hwt
  refine ⟨out, m', hcall, hlen, ?_, hA4, ?_⟩
  · intro pos k' hk'
    by_cases hhit : ∃ k i, out.linked.get? k = some i ∧
        firstMatchPos f i m.leads = some pos
    · obtain ⟨k, i, hk, hkpos⟩ := hhit
      obtain ⟨pos', lead, hfm, hm0, hnull, hset⟩ := hA3 k i hk
      rw [hfm] at hkpos
      cases hkpos
      rw [hset, hm0]
      simp [dictGet_dictSet_ne _ _ hk']
    · push_neg at hhit
      rw [hA4 pos (fun k i hk => hhit k i hk)]
  · intro k i hk
    obtain ⟨pos, lead, hfm, hm0, hnull, hset⟩ := hA3 k i hk
    exact ⟨pos, lead, _, hfm, hm0, hnull, hset⟩

/-- Witness for C10 at a concrete run: a lead list carrying extra
enrichment keys, linking rows 0 and 2. -/
theorem link_indices_frame_witness :
    ∃ out m', link_indices_func "postIndex" [0, 2] "profileIndex"
      ⟨[[("postIndex", .int 0), ("flag", .bool true)],
        [("postIndex", .int 1), ("note", .str "keep")],
        [("postIndex", .int 2)]]⟩ = .ok (out, m') ∧
      m'.leads.length = 3 ∧
      (∀ pos k', k' ≠ "profileIndex" →
        (m'.leads.get? pos).map (fun lead => dictGet lead k')
          = ((Mapping.mk [[("postIndex", .int 0), ("flag", .bool true)],
              [("postIndex", .int 1), ("note", .str "keep")],
              [("postIndex", .int 2)]]).leads.get? pos).map
            (fun lead => dictGet lead k')) := by
  obtain ⟨out, m', hcall, hlen, hframe, _, _⟩ :=
    link_indices_frame "postIndex" "profileIndex"
      ⟨[[("postIndex", .int 0), ("flag", .bool true)],
        [("postIndex", .int 1), ("note", .str "keep")],
        [("postIndex", .int 2)]]⟩ [0, 2] (by decide) (by rfl)
  exact ⟨out, m', hcall, hlen, hframe⟩

/-- A source index whose first-matching lead already carries a
non-`None` target value: the link loop records it as skipped and changes
nothing. -/
def MatchedSkips (f g : String) (leads : List Lead) (i : Int) : Prop :=
  ∃ pos lead, firstMatchPos f i leads = some pos ∧
    leads.get? pos = some lead ∧ isNull (dictGet lead g) = false

theorem pyEqInt_nonNull {v : PyVal} {i : Int} (h : pyEqInt v i = true) :
    isNull v = false := by
  cases v <;> simp [pyEqInt, pyNum, isNull] at h ⊢

/-- A run in which every index is a `MatchedSkips` one only appends the
whole index list to `skipped`. -/
theorem skipRun (f g : String) :
    ∀ (idxs : List Int) (st : LinkState),
      (∀ i ∈ idxs, MatchedSkips f g st.leads i) →
      idxs.foldl (linkStep f g) st = { st with skipped := st.skipped ++ idxs } := by
  intro idxs
  induction idxs with
  | nil => intro st _; simp
  | cons i rest ih =>
    intro st h
    obtain ⟨pos, lead, hfm, hget, hnn⟩ := h i (by simp)
    have hstep : linkStep f g st i = { st with skipped := st.skipped ++ [i] } :=
      linkStep_eq_skip hfm hget hnn
    have hrest : ∀ j ∈ rest, MatchedSkips f g
        ({ st with skipped := st.skipped ++ [i] } : LinkState).leads j :=
      fun j hj => h j (by simp [hj])
    calc (i :: rest).foldl (linkStep f g) st
        = rest.foldl (linkStep f g) { st with skipped := st.skipped ++ [i] } := by
          rw [List.foldl_cons, hstep]
      _ = { st with skipped := (st.skipped ++ [i]) ++ rest } := ih _ hrest
      _ = { st with skipped := st.skipped ++ i :: rest } := by
          simp

theorem linkStep_fpointwise {f g : String} (hfg : f ≠ g) (st : LinkState)
    (idx : Int) (pos : Nat) :
    ((linkStep f g st idx).leads.get? pos).map (fun lead => dictGet lead f)
      = (st.leads.get? pos).map (fun lead => dictGet lead f) := by
  cases hfm : firstMatchPos f idx st.leads with
  | none => rw [linkStep_eq_none hfm]
  | some pos' =>
    have hplt : pos' < st.leads.length := firstMatchPos_lt hfm
    obtain ⟨lead, hget, hmatch⟩ := firstMatchPos_get hfm
    by_cases hnull : isNull (dictGet lead g) = true
    · rw [linkStep_eq_link hfm hget hnull]
      by_cases he : pos = pos'
      · subst he
        show ((st.leads.set pos _).get? pos).map _ = _
        rw [List.get?_set_eq_of_lt _ hplt, hget]
        simp [dictGet_dictSet_ne _ _ hfg]
      · show ((st.leads.set pos' _).get? pos).map _ = _
        rw [List.get?_set_ne _ _ (fun h2 => he h2.symm)]
    · rw [linkStep_eq_skip hfm hget (by simpa using hnull)]

theorem linkStep_firstMatch {f g : String} (hfg : f ≠ g) (st : LinkState)
    (idx i : Int) :
    firstMatchPos f i (linkStep f g st idx).leads
      = firstMatchPos f i st.leads :=
  firstMatchPos_ext _ _ (fun pos => linkStep_fpointwise hfg st idx pos)

theorem MatchedSkips_step {f g : String} (hfg : f ≠ g) {st : LinkState}
    {i : Int} (h : MatchedSkips f g st.leads i) (idx : Int) :
    MatchedSkips f g (linkStep f g st idx).leads i := by
  obtain ⟨pos, lead, hfm, hget, hnn⟩ := h
  have hstab : firstMatchPos f i (linkStep f g st idx).leads = some pos := by
    rw [linkStep_firstMatch hfg st idx i]
    exact hfm
  cases hfm' : firstMatchPos f idx st.leads with
  | none =>
    rw [linkStep_eq_none hfm'] at hstab ⊢
    exact ⟨pos, lead, hstab, hget, hnn⟩
  | some pos' =>
    obtain ⟨lead', hget', hmatch'⟩ := firstMatchPos_get hfm'
    by_cases hnull' : isNull (dictGet lead' g) = true
    · have hne : pos' ≠ pos := by
        intro he
        subst he
        rw [hget] at hget'
        cases hget'
        rw [hnn] at hnull'
        cases hnull'
      rw [linkStep_eq_link hfm' hget' hnull'] at hstab ⊢
      refine ⟨pos, lead, hstab, ?_, hnn⟩
      show (st.leads.set pos' _).get? pos = some lead
      rw [List.get?_set_ne _ _ hne]
      exact hget
    · rw [linkStep_eq_skip hfm' hget' (by simpa using hnull')] at hstab ⊢
      exact ⟨pos, lead, hstab, hget, hnn⟩

theorem MatchedSkips_fold {f g : String} (hfg : f ≠ g) :
    ∀ (idxs : List Int) (st : LinkState) {i : Int},
      MatchedSkips f g st.leads i →
      MatchedSkips f g (idxs.foldl (linkStep f g) st).leads i
  | [], _, _, h => h
  | idx :: rest, st, _, h =>
    MatchedSkips_fold hfg rest (linkStep f g st idx) (MatchedSkips_step hfg h idx)

theorem step_creates_MatchedSkips {f g : String} (hfg : f ≠ g)
    {st : LinkState} {idx : Int} (h : hasMatch f idx st.leads = true) :
    MatchedSkips f g (linkStep f g st idx).leads idx := by
  simp only [hasMatch, Option.isSome_iff_exists] at h
  obtain ⟨pos, hfm⟩ := h
  have hplt : pos < st.leads.length := firstMatchPos_lt hfm
  obtain ⟨lead, hget, hmatch⟩ := firstMatchPos_get hfm
  by_cases hnull : isNull (dictGet lead g) = true
  · rw [linkStep_eq_link hfm hget hnull]
    refine ⟨pos, dictSet lead g (.int st.next), ?_, ?_, ?_⟩
    · show firstMatchPos f idx (st.leads.set pos _) = some pos
      have := linkStep_firstMatch hfg st idx idx
      rw [linkStep_eq_link hfm hget hnull] at this
      exact this.trans hfm
    · show (st.leads.set pos _).get? pos = _
      rw [List.get?_set_eq_of_lt _ hplt]
    · rw [dictGet_dictSet_self]
      rfl
  · rw [linkStep_eq_skip hfm hget (by simpa using hnull)]
    exact ⟨pos, lead, hfm, hget, by simpa using hnull⟩

theorem processed_all_MatchedSkips {f g : String} (hfg : f ≠ g) :
    ∀ (idxs : List Int) (st : LinkState),
      (∀ i ∈ idxs, hasMatch f i st.leads = true) →
      ∀ i ∈ idxs, MatchedSkips f g (idxs.foldl (linkStep f g) st).leads i := by
  intro idxs
  induction idxs with
  | nil => intro st _ i hi; cases hi
  | cons idx rest ih =>
    intro st h i hi
    have hstep : ∀ j (_ : j ∈ rest), hasMatch f j (linkStep f g st idx).leads = true := by
      intro j hj
      rw [hasMatch, linkStep_firstMatch hfg st idx j]
      exact h j (by simp [hj])
    rcases List.mem_cons.1 hi with rfl | hi'
    · exact MatchedSkips_fold hfg rest _
        (step_creates_MatchedSkips hfg (h i (by simp)))
    · exact ih (linkStep f g st idx) hstep i hi'

/-- Unfolds `link_indices_func` once the allocator scan is known. -/
theorem link_indices_func_eq (f g : String) (m : Mapping) (maxT : Int)
    (hmax : findMaxTarget g m.leads (-1) = .ok maxT) (idxs : List Int) :
    link_indices_func f idxs g m =
      .ok ({ status := "success",
             linked := (idxs.foldl (linkStep f g) ⟨m.leads, [], [], maxT + 1⟩).linked,
             skipped := (idxs.foldl (linkStep f g) ⟨m.leads, [], [], maxT + 1⟩).skipped,
             target_start :=
               if (idxs.foldl (linkStep f g) ⟨m.leads, [], [], maxT + 1⟩).linked.isEmpty
               then none else some (maxT + 1),
             error := none },
           ⟨(idxs.foldl (linkStep f g) ⟨m.leads, [], [], maxT + 1⟩).leads⟩) := by
  rw [link_indices_func, hmax]
  rfl

/-- C3 (idempotent linking): on a mapping with a lead for each of the
source indices 0, 1 and 2 (and a well-typed target field), calling
`link(f, [0,1,2], g)` twice with no other mutation in between returns,
on the second call, `linked = []` and `skipped = [0,1,2]`, and the
second call leaves the mapping state unchanged. -/
theorem link_idempotent (f g : String) (m : Mapping)
    (hwt : wellTypedG g m.leads = true)
    (h0 : hasMatch f 0 m.leads = true) (h1 : hasMatch f 1 m.leads = true)
    (h2 : hasMatch f 2 m.leads = true) :
    ∃ out₁ m₁ out₂ m₂,
      link_indices_func f [0, 1, 2] g m = .ok (out₁, m₁) ∧
      link_indices_func f [0, 1, 2] g m₁ = .ok (out₂, m₂) ∧
      out₂.linked = [] ∧ out₂.skipped = [0, 1, 2] ∧ m₂ = m₁ := by
  have hall : ∀ i : Int, i ∈ ([0, 1, 2] : List Int) → hasMatch f i m.leads = true := by
    intro i hi
    rcases List.mem_cons.1 hi with rfl | hi
    · exact h0
    rcases List.mem_cons.1 hi with rfl | hi
    · exact h1
    rcases List.mem_cons.1 hi with rfl | hi
    · exact h2
    cases hi
  by_cases hfg : f = g
  · -- source and target field coincide: every match already carries the
    -- field, so both calls only skip
    subst hfg
    obtain ⟨maxT, hmax, _, _, _⟩ := findMaxTarget_ok f m.leads (-1) hwt
    have hms : ∀ i ∈ ([0, 1, 2] : List Int), MatchedSkips f f m.leads i := by
      intro i hi
      simp only [hasMatch, Option.isSome_iff_exists] at hall
      obtain ⟨pos, hfm⟩ := hall i hi
      obtain ⟨lead, hget, hmatch⟩ := firstMatchPos_get hfm
      exact ⟨pos, lead, hfm, hget, pyEqInt_nonNull hmatch⟩
    have hrun := skipRun f f [0, 1, 2] ⟨m.leads, [], [], maxT + 1⟩ hms
    have hcall : link_indices_func f [0, 1, 2] f m =
        .ok ({ status := "success", linked := [], skipped := [0, 1, 2],
               target_start := none, error := none }, ⟨m.leads⟩) := by
      rw [link_indices_func_eq f f m maxT hmax [0, 1, 2], hrun]
      rfl
    have hmm : (⟨m.leads⟩ : Mapping) = m := by cases m; rfl
    rw [hmm] at hcall
    exact ⟨_, m, _, m, hcall, hcall, rfl, rfl, rfl⟩
  · obtain ⟨maxT, out₁, m₁, hmax, _, _, hcall₁, _, _, _, _, _, _, _, hwt₁, _⟩ :=
      link_run_spec f g hfg m [0, 1, 2] hwt
    obtain ⟨maxT₂, hmax₂, _, _, _⟩ := findMaxTarget_ok g m₁.leads (-1) hwt₁
    -- after the first call every index 0,1,2 only skips
    have hm₁leads : m₁.leads =
        (([0, 1, 2] : List Int).foldl (linkStep f g) ⟨m.leads, [], [], maxT + 1⟩).leads := by
      rw [link_indices_func_eq f g m maxT hmax [0, 1, 2]] at hcall₁
      cases hcall₁
      rfl
    have hms : ∀ i ∈ ([0, 1, 2] : List Int), MatchedSkips f g m₁.leads i := by
      rw [hm₁leads]
      exact fun i hi => processed_all_MatchedSkips hfg [0, 1, 2] _
        (fun j hj => hall j hj) i hi
    have hrun := skipRun f g [0, 1, 2] ⟨m₁.leads, [], [], maxT₂ + 1⟩ hms
    have hcall₂ : link_indices_func f [0, 1, 2] g m₁ =
        .ok ({ status := "success", linked := [], skipped := [0, 1, 2],
               target_start := none, error := none }, ⟨m₁.leads⟩) := by
      rw [link_indices_func_eq f g m₁ maxT₂ hmax₂ [0, 1, 2], hrun]
      rfl
    have hmm : (⟨m₁.leads⟩ : Mapping) = m₁ := by cases m₁; rfl
    rw [hmm] at hcall₂
    exact ⟨out₁, m₁, _, m₁, hcall₁, hcall₂, rfl, rfl, rfl⟩

/-- Witness for C3: the spec's three-lead mapping, linked twice. -/
theorem link_idempotent_witness :
    ∃ out₁ m₁ out₂ m₂,
      link_indices_func "postIndex" [0, 1, 2] "profileIndex"
        ⟨[[("postIndex", .int 0)], [("postIndex", .int 1)],
          [("postIndex", .int 2)]]⟩ = .ok (out₁, m₁) ∧
      link_indices_func "postIndex" [0, 1, 2] "profileIndex" m₁ = .ok (out₂, m₂) ∧
      out₂.linked = [] ∧ out₂.skipped = [0, 1, 2] ∧ m₂ = m₁ :=
  link_idempotent "postIndex" "profileIndex"
    ⟨[[("postIndex", .int 0)], [("postIndex", .int 1)], [("postIndex", .int 2)]]⟩
    (by rfl) (by rfl) (by rfl) (by rfl)

/-! ## CLI versus importable linking (C7) -/

theorem cliLinkLoop_cons_none {f g : String} {st : LinkState} {idx : Int}
    {rest : List Int} (h : firstMatchPos f idx st.leads = none) :
    cliLinkLoop f g (idx :: rest) st = (st, some idx) := by
  simp [cliLinkLoop, h]

theorem cliLinkLoop_cons_step {f g : String} {st : LinkState} {idx : Int}
    {rest : List Int} {pos : Nat} {lead : Lead}
    (hfm : firstMatchPos f idx st.leads = some pos)
    (hget : st.leads.get? pos = some lead) :
    cliLinkLoop f g (idx :: rest) st
      = cliLinkLoop f g rest (linkStep f g st idx) := by
  have hget2 : st.leads[pos]? = some lead := by
    rw [← List.get?_eq_getElem?]
    exact hget
  by_cases hnull : isNull (dictGet lead g) = true
  · rw [linkStep_eq_link hfm hget hnull]
    simp [cliLinkLoop, hfm, hget2, hnull]
  · rw [linkStep_eq_skip hfm hget (by simpa using hnull)]
    simp [cliLinkLoop, hfm, hget2, hnull]

theorem cliLinkLoop_all_match {f g : String} (hfg : f ≠ g) :
    ∀ (idxs : List Int) (st : LinkState),
      (∀ i ∈ idxs, hasMatch f i st.leads = true) →
      cliLinkLoop f g idxs st = (idxs.foldl (linkStep f g) st, none) := by
  intro idxs
  induction idxs with
  | nil => intro st _; rfl
  | cons idx rest ih =>
    intro st h
    have hm : hasMatch f idx st.leads = true := h idx (by simp)
    simp only [hasMatch, Option.isSome_iff_exists] at hm
    obtain ⟨pos, hfm⟩ := hm
    obtain ⟨lead, hget, _⟩ := firstMatchPos_get hfm
    rw [cliLinkLoop_cons_step hfm hget, List.foldl_cons]
    refine ih (linkStep f g st idx) (fun i hi => ?_)
    rw [hasMatch, linkStep_firstMatch hfg st idx i]
    exact h i (by simp [hi])

theorem fold_firstMatch {f g : String} (hfg : f ≠ g) :
    ∀ (idxs : List Int) (st : LinkState) (i : Int),
      firstMatchPos f i (idxs.foldl (linkStep f g) st).leads
        = firstMatchPos f i st.leads
  | [], _, _ => rfl
  | idx :: rest, st, i => by
    rw [List.foldl_cons, fold_firstMatch hfg rest _ i,
      linkStep_firstMatch hfg st idx i]

theorem cliLinkLoop_abort {f g : String} (hfg : f ≠ g) :
    ∀ (pre : List Int) (bad : Int) (post : List Int) (st : LinkState),
      (∀ i ∈ pre, hasMatch f i st.leads = true) →
      hasMatch f bad st.leads = false →
      cliLinkLoop f g (pre ++ bad :: post) st
        = (pre.foldl (linkStep f g) st, some bad) := by
  intro pre
  induction pre with
  | nil =>
    intro bad post st _ hbad
    simp only [hasMatch, Option.isSome_iff_exists] at hbad
    have hnone : firstMatchPos f bad st.leads = none := by
      cases hfm : firstMatchPos f bad st.leads with
      | none => rfl
      | some p =>
        exfalso
        simp [hfm] at hbad
    simpa using @cliLinkLoop_cons_none f g st bad post hnone
  | cons idx rest ih =>
    intro bad post st h hbad
    have hm : hasMatch f idx st.leads = true := h idx (by simp)
    simp only [hasMatch, Option.isSome_iff_exists] at hm
    obtain ⟨pos, hfm⟩ := hm
    obtain ⟨lead, hget, _⟩ := firstMatchPos_get hfm
    rw [List.cons_append, cliLinkLoop_cons_step hfm hget, List.foldl_cons]
    refine ih bad post (linkStep f g st idx) (fun i hi => ?_) ?_
    · rw [hasMatch, linkStep_firstMatch hfg st idx i]
      exact h i (by simp [hi])
    · rw [hasMatch, linkStep_firstMatch hfg st idx bad]
      exact hbad

/-- Unfolds `link_indices_cli` once the allocator scan is known. -/
theorem link_indices_cli_eq (f g : String) (m : Mapping) (maxT : Int)
    (hmax : findMaxTarget g m.leads (-1) = .ok maxT) (idxs : List Int) :
    link_indices_cli f idxs g m =
      (match cliLinkLoop f g idxs ⟨m.leads, [], [], maxT + 1⟩ with
       | (st, none) =>
         .ok ({ status := "success", linked := st.linked, skipped := st.skipped,
                target_start := if st.linked.isEmpty then none else some (maxT + 1),
                error := none }, ⟨st.leads⟩)
       | (st, some badIdx) =>
         .ok ({ status := "error", linked := st.linked, skipped := st.skipped,
                target_start := none,
                error := some (cliLinkErrMsg badIdx st.linked st.skipped) },
              ⟨st.leads⟩)) := by
  rw [link_indices_cli, hmax]
  rfl

/-- C7: on a well-typed mapping with distinct source and target index
fields, when every source index has a matching lead the CLI
`link-indices` command and the importable `link_indices_func` return the
same output (linked, skipped, `target_start`) and the same final mapping
state; when a source index has no matching lead, the importable path
silently drops exactly that index and continues, while the CLI path
stops there, persists the progress made on the preceding indices, and
reports an error carrying that progress. -/
theorem link_cli_func_relation (f g : String) (m : Mapping) (hfg : f ≠ g)
    (hwt : wellTypedG g m.leads = true) :
    (∀ idxs, (∀ i ∈ idxs, hasMatch f i m.leads = true) →
      link_indices_cli f idxs g m = link_indices_func f idxs g m) ∧
    (∀ pre bad post, (∀ i ∈ pre, hasMatch f i m.leads = true) →
      hasMatch f bad m.leads = false →
      link_indices_func f (pre ++ bad :: post) g m
        = link_indices_func f (pre ++ post) g m ∧
      ∃ out₁ m₁, link_indices_func f pre g m = .ok (out₁, m₁) ∧
        link_indices_cli f (pre ++ bad :: post) g m =
          .ok ({ status := "error", linked := out₁.linked,
                 skipped := out₁.skipped, target_start := none,
                 error := some (cliLinkErrMsg bad out₁.linked out₁.skipped) },
               m₁)) := by
  obtain ⟨maxT, hmax, _, _, _⟩ := findMaxTarget_ok g m.leads (-1) hwt
  constructor
  · intro idxs h
    rw [link_indices_cli_eq f g m maxT hmax idxs,
      link_indices_func_eq f g m maxT hmax idxs,
      cliLinkLoop_all_match hfg idxs _ (fun i hi => h i hi)]
  · intro pre bad post hpre hbad
    constructor
    · rw [link_indices_func_eq f g m maxT hmax (pre ++ bad :: post),
        link_indices_func_eq f g m maxT hmax (pre ++ post)]
      have hfold : (pre ++ bad :: post).foldl (linkStep f g)
          ⟨m.leads, [], [], maxT + 1⟩
          = (pre ++ post).foldl (linkStep f g) ⟨m.leads, [], [], maxT + 1⟩ := by
        rw [List.foldl_append, List.foldl_append, List.foldl_cons]
        have hbad' : firstMatchPos f bad
            (pre.foldl (linkStep f g) ⟨m.leads, [], [], maxT + 1⟩).leads = none := by
          rw [fold_firstMatch hfg pre _ bad]
          simp only [hasMatch, Option.isSome_iff_exists] at hbad
          cases hfm : firstMatchPos f bad m.leads with
          | none => rfl
          | some p => exfalso; simp [hfm] at hbad
        rw [linkStep_eq_none hbad']
      rw [hfold]
    · rw [link_indices_func_eq f g m maxT hmax pre,
        link_indices_cli_eq f g m maxT hmax (pre ++ bad :: post),
        cliLinkLoop_abort hfg pre bad post _ (fun i hi => hpre i hi) hbad]
      exact ⟨_, _, rfl, rfl⟩

/-- Witness for C7: three leads; linking `[0, 2]` agrees between the two
entry points, and linking `[0, 5, 2]` (5 has no lead) diverges as
described. -/
theorem link_cli_func_relation_witness :
    (∀ idxs, (∀ i ∈ idxs, hasMatch "postIndex" i
        (Mapping.mk [[("postIndex", .int 0)], [("postIndex", .int 1)],
          [("postIndex", .int 2)]]).leads = true) →
      link_indices_cli "postIndex" idxs "profileIndex"
        ⟨[[("postIndex", .int 0)], [("postIndex", .int 1)], [("postIndex", .int 2)]]⟩
        = link_indices_func "postIndex" idxs "profileIndex"
        ⟨[[("postIndex", .int 0)], [("postIndex", .int 1)], [("postIndex", .int 2)]]⟩) ∧
    (∀ pre bad post, (∀ i ∈ pre, hasMatch "postIndex" i
        (Mapping.mk [[("postIndex", .int 0)], [("postIndex", .int 1)],
          [("postIndex", .int 2)]]).leads = true) →
      hasMatch "postIndex" bad (Mapping.mk [[("postIndex", .int 0)],
        [("postIndex", .int 1)], [("postIndex", .int 2)]]).leads = false →
      link_indices_func "postIndex" (pre ++ bad :: post) "profileIndex"
        ⟨[[("postIndex", .int 0)], [("postIndex", .int 1)], [("postIndex", .int 2)]]⟩
        = link_indices_func "postIndex" (pre ++ post) "profileIndex"
        ⟨[[("postIndex", .int 0)], [("postIndex", .int 1)], [("postIndex", .int 2)]]⟩ ∧
      ∃ out₁ m₁, link_indices_func "postIndex" pre "profileIndex"
        ⟨[[("postIndex", .int 0)], [("postIndex", .int 1)], [("postIndex", .int 2)]]⟩
          = .ok (out₁, m₁) ∧
        link_indices_cli "postIndex" (pre ++ bad :: post) "profileIndex"
          ⟨[[("postIndex", .int 0)], [("postIndex", .int 1)], [("postIndex", .int 2)]]⟩ =
          .ok ({ status := "error", linked := out₁.linked,
                 skipped := out₁.skipped, target_start := none,
                 error := some (cliLinkErrMsg bad out₁.linked out₁.skipped) },
               m₁)) :=
  link_cli_func_relation "postIndex" "profileIndex"
    ⟨[[("postIndex", .int 0)], [("postIndex", .int 1)], [("postIndex", .int 2)]]⟩
    (by decide) (by rfl)

/-! ## The duplicate-index safety net of `process` (C4) -/

def isDict : PyVal → Bool
  | .dict _ => true
  | _ => false

theorem fileLookup_fileSave_self (store : Store) (name : String)
    (content : List PyVal) :
    fileLookup (fileSave store name content) name = some content := by
  simp [fileLookup, fileSave, List.find?]

theorem fileLookup_fileSave_other (store : Store) (name p : String)
    (content : List PyVal) (h : p ≠ name) :
    fileLookup (fileSave store name content) p = fileLookup store p := by
  simp [fileLookup, fileSave, List.find?, Ne.symm h]

theorem collectIndices_ok :
    ∀ (l : List PyVal), (∀ item ∈ l, isDict item = true) →
      ∃ E, collectIndices l = .ok E := by
  intro l
  induction l with
  | nil => exact fun _ => ⟨[], rfl⟩
  | cons item rest ih =>
    intro h
    obtain ⟨E, hE⟩ := ih (fun x hx => h x (by simp [hx]))
    have hd : isDict item = true := h item (by simp)
    cases item with
    | dict d =>
      by_cases hn : isNull (dictGet d "index") = true
      · exact ⟨E, by simp [collectIndices, hE, hn]⟩
      · exact ⟨dictGet d "index" :: E, by simp [collectIndices, hE, hn]⟩
    | null => simp [isDict] at hd
    | bool b => simp [isDict] at hd
    | int n => simp [isDict] at hd
    | str s => simp [isDict] at hd
    | list xs => simp [isDict] at hd
    | pair i v => simp [isDict] at hd

/-- C4: when the new results batch shares a non-`None` `index` value with
the records already in the target output file, the batch append step of
`process` raises the duplicate-index error before any write — the error
result carries no store, so the on-disk output file is untouched; when
there is no overlap, the step succeeds and the saved file is exactly the
existing records followed by the new records, all other files
unchanged. -/
theorem process_save_results_spec (store : Store) (results_path : String)
    (all_results : List PyVal)
    (hdex : ∀ item ∈ (fileLookup store results_path).getD [], isDict item = true)
    (hdnew : ∀ item ∈ all_results, isDict item = true) :
    ∃ E N, collectIndices ((fileLookup store results_path).getD []) = .ok E ∧
      collectIndices all_results = .ok N ∧
      (setInterNonempty E N = true →
        ∃ msg, process_save_results store results_path all_results
          = .error (.valueError msg)) ∧
      (setInterNonempty E N = false →
        ∃ store', process_save_results store results_path all_results = .ok store' ∧
          fileLookup store' results_path
            = some ((fileLookup store results_path).getD [] ++ all_results) ∧
          ∀ p, p ≠ results_path → fileLookup store' p = fileLookup store p) := by
  obtain ⟨E, hE⟩ := collectIndices_ok _ hdex
  obtain ⟨N, hN⟩ := collectIndices_ok _ hdnew
  refine ⟨E, N, hE, hN, ?_, ?_⟩
  · intro hover
    refine ⟨"DUPLICATE INDEX ERROR: indices already exist in " ++ results_path, ?_⟩
    simp [process_save_results, hE, hN, hover]
  · intro hover
    refine ⟨fileSave store results_path
      ((fileLookup store results_path).getD [] ++ all_results), ?_, ?_, ?_⟩
    · simp [process_save_results, hE, hN, hover]
    · exact fileLookup_fileSave_self _ _ _
    · exact fun p hp => fileLookup_fileSave_other _ _ _ _ hp

/-- Witness for C4: a results file holding index 0; a batch re-using
index 0 is rejected, a batch with index 1 appends. -/
theorem process_save_results_spec_witness :
    (∃ msg, process_save_results
      ⟨[("postData_isX.json", [.dict [("index", .int 0), ("isX", .bool true)]])],
        none, none⟩
      "postData_isX.json" [.dict [("index", .int 0), ("isX", .bool false)]]
      = .error (.valueError msg)) ∧
    (∃ store', process_save_results
      ⟨[("postData_isX.json", [.dict [("index", .int 0), ("isX", .bool true)]])],
        none, none⟩
      "postData_isX.json" [.dict [("index", .int 1), ("isX", .bool false)]]
      = .ok store' ∧
      fileLookup store' "postData_isX.json"
        = some [.dict [("index", .int 0), ("isX", .bool true)],
                .dict [("index", .int 1), ("isX", .bool false)]]) := by
  constructor
  · obtain ⟨E, N, hE, hN, hdup, _⟩ := process_save_results_spec
      ⟨[("postData_isX.json", [.dict [("index", .int 0), ("isX", .bool true)]])],
        none, none⟩
      "postData_isX.json" [.dict [("index", .int 0), ("isX", .bool false)]]
      (by intro item hitem; simp [fileLookup, List.find?] at hitem; simp [hitem, isDict])
      (by intro item hitem; simp at hitem; simp [hitem, isDict])
    refine hdup ?_
    rw [show E = [PyVal.int 0] from by
        rw [show collectIndices ((fileLookup
          ⟨[("postData_isX.json", [.dict [("index", .int 0), ("isX", .bool true)]])],
            none, none⟩ "postData_isX.json").getD []) = .ok [PyVal.int 0] from rfl] at hE
        exact ((Except.ok.injEq _ _).mp hE).symm,
      show N = [PyVal.int 0] from by
        rw [show collectIndices [PyVal.dict [("index", .int 0), ("isX", .bool false)]]
          = .ok [PyVal.int 0] from rfl] at hN
        exact ((Except.ok.injEq _ _).mp hN).symm]
    rfl
  · obtain ⟨E, N, hE, hN, _, hok⟩ := process_save_results_spec
      ⟨[("postData_isX.json", [.dict [("index", .int 0), ("isX", .bool true)]])],
        none, none⟩
      "postData_isX.json" [.dict [("index", .int 1), ("isX", .bool false)]]
      (by intro item hitem; simp [fileLookup, List.find?] at hitem; simp [hitem, isDict])
      (by intro item hitem; simp at hitem; simp [hitem, isDict])
    have hE' : E = [PyVal.int 0] := by
      rw [show collectIndices ((fileLookup
        ⟨[("postData_isX.json", [.dict [("index", .int 0), ("isX", .bool true)]])],
          none, none⟩ "postData_isX.json").getD []) = .ok [PyVal.int 0] from rfl] at hE
      exact ((Except.ok.injEq _ _).mp hE).symm
    have hN' : N = [PyVal.int 1] := by
      rw [show collectIndices [PyVal.dict [("index", .int 1), ("isX", .bool false)]]
        = .ok [PyVal.int 1] from rfl] at hN
      exact ((Except.ok.injEq _ _).mp hN).symm
    obtain ⟨store', hrun, hfile, _⟩ := hok (by rw [hE', hN']; rfl)
    exact ⟨store', hrun, hfile⟩

/-! ## Registry resolution of where filters (C5) -/

/-- C5, counterexample: registry registers `isAgency` to an output file
whose own index field is `profileIndex`; a lead carries `profileIndex: 5`
(matching the file's record `{index: 5, isAgency: true}`) and
`postIndex: 0`.  The claimed translation through the lead qualifies
`postIndex` 0, but `get_qualified_indices` compares the file's own-domain
index 5 directly against the lead's `postIndex` value 0 — the registered
`index_field` is read into a local and never used — so the code returns
no qualified index at all. -/
theorem registry_where_no_translation :
    get_qualified_indices
      ⟨[("profileData_isAgency.json",
          [.dict [("index", .int 5), ("isAgency", .bool true)]])],
        some ⟨[[("postIndex", .int 0), ("profileIndex", .int 5)]]⟩,
        some ⟨[("profileData_isAgency.json", ⟨["isAgency"], "profileIndex"⟩)],
          [("isAgency", "profileData_isAgency.json")]⟩⟩
      ⟨[[("postIndex", .int 0), ("profileIndex", .int 5)]]⟩
      "isAgency=true" "postIndex" = .ok (some []) ∧
    qualifiedIndicesClaim
      ⟨[("profileData_isAgency.json",
          [.dict [("index", .int 5), ("isAgency", .bool true)]])],
        some ⟨[[("postIndex", .int 0), ("profileIndex", .int 5)]]⟩,
        some ⟨[("profileData_isAgency.json", ⟨["isAgency"], "profileIndex"⟩)],
          [("isAgency", "profileData_isAgency.json")]⟩⟩
      ⟨[[("postIndex", .int 0), ("profileIndex", .int 5)]]⟩
      "isAgency" (.bool true) "postIndex" = some [.int 0] := by
  constructor
  · rfl
  · rfl

theorem registryFilterMap_ext (index_field : String) (matching : List PyVal) :
    ∀ (l₁ l₂ : List Lead),
      (∀ pos, (l₁.get? pos).map (fun lead => dictGet lead index_field)
        = (l₂.get? pos).map (fun lead => dictGet lead index_field)) →
      l₁.filterMap (fun lead =>
        let leadIdx := dictGet lead index_field
        if pyMem leadIdx matching then some leadIdx else none)
      = l₂.filterMap (fun lead =>
        let leadIdx := dictGet lead index_field
        if pyMem leadIdx matching then some leadIdx else none) := by
  intro l₁
  induction l₁ with
  | nil =>
    intro l₂ h
    cases l₂ with
    | nil => rfl
    | cons b bs => simpa using h 0
  | cons a as ih =>
    intro l₂ h
    cases l₂ with
    | nil => simpa using h 0
    | cons b bs =>
      have h0 : dictGet a index_field = dictGet b index_field := by simpa using h 0
      have ht : ∀ pos, (as.get? pos).map (fun lead => dictGet lead index_field)
          = (bs.get? pos).map (fun lead => dictGet lead index_field) := fun pos => by
        simpa using h (pos + 1)
      simp only [List.filterMap_cons, h0, ih bs ht]

theorem buildMatching_dicts (field : String) (value : PyVal) :
    ∀ (l : List PyVal), (∀ item ∈ l, isDict item = true) →
      buildMatching field value l = .ok (l.filterMap (fun item =>
        match item with
        | .dict d =>
          if pyEq (dictGet d field) value then some (dictGet d "index") else none
        | _ => none)) := by
  intro l
  induction l with
  | nil => intro _; rfl
  | cons item rest ih =>
    intro h
    have hrest := ih (fun x hx => h x (by simp [hx]))
    have hd : isDict item = true := h item (by simp)
    cases item with
    | dict d =>
      by_cases hm : pyEq (dictGet d field) value = true
      · simp [buildMatching, hrest, hm]
      · simp [buildMatching, hrest, hm]
    | null => simp [isDict] at hd
    | bool b => simp [isDict] at hd
    | int n => simp [isDict] at hd
    | str s => simp [isDict] at hd
    | list xs => simp [isDict] at hd
    | pair i v => simp [isDict] at hd

theorem pyEq_null_right (v : PyVal) : pyEq v .null = true ↔ v = .null := by
  cases v <;> simp [pyEq, pyNum]

/-- C5 (amended): once a field is registered to an output file, a `where`
filter on it resolves through the registered file and is insensitive to
any same-named property attached directly to leads — but the collected
own-domain indices are compared directly against the extraction's
index-field values on leads instead of being translated through the
lead's copy of the file's own index field, which is a faithful
translation exactly when the file's registered index field equals the
extraction's; the legacy scan of attached lead properties, in turn,
never reads the output files and applies only when the field is not
registered. -/
theorem registry_resolution_amended (store : Store)
    (w index_field field raw : String)
    (hw : w ≠ "") (hp : parseWhere w = some (field, raw)) :
    (∀ file (m₁ m₂ : Mapping),
      assocGet (load_registry store).fields field = some file → file ≠ "" →
      (∀ pos, (m₁.leads.get? pos).map (fun lead => dictGet lead index_field)
        = (m₂.leads.get? pos).map (fun lead => dictGet lead index_field)) →
      get_qualified_indices store m₁ w index_field
        = get_qualified_indices store m₂ w index_field) ∧
    (∀ file info llm_data (m : Mapping),
      assocGet (load_registry store).fields field = some file → file ≠ "" →
      assocGet (load_registry store).files file = some info →
      info.indexField = index_field →
      fileLookup store (get_dataset_path file) = some llm_data →
      (∀ item ∈ llm_data, ∃ d, item = .dict d ∧ dictGet d "index" ≠ .null) →
      ∃ qs, qualifiedIndicesClaim store m field (coerceLit raw) index_field = some qs ∧
        get_qualified_indices store m w index_field = .ok (some qs)) ∧
    (∀ (store₂ : Store) (m : Mapping),
      assocGet (load_registry store).fields field = none →
      store₂.registry = store.registry →
      get_qualified_indices store₂ m w index_field
        = get_qualified_indices store m w index_field) := by
  refine ⟨?_, ?_, ?_⟩
  · intro file m₁ m₂ hreg hfile hpt
    simp only [get_qualified_indices, if_neg hw, hp, hreg, if_pos hfile]
    cases hfl : fileLookup store (get_dataset_path file) with
    | none => rfl
    | some llm_data =>
      dsimp only
      cases hbm : buildMatching field (coerceLit raw) llm_data with
      | error e => rfl
      | ok matching =>
        dsimp only
        rw [registryFilterMap_ext index_field matching m₁.leads m₂.leads hpt]
  · intro file info llm_data m hreg hfile hinfo hidx hfl hitems
    have hdicts : ∀ item ∈ llm_data, isDict item = true := by
      intro item hitem
      obtain ⟨d, rfl, _⟩ := hitems item hitem
      rfl
    have hbm := buildMatching_dicts field (coerceLit raw) llm_data hdicts
    have hnonull : pyMem .null (llm_data.filterMap (fun item =>
        match item with
        | .dict d =>
          if pyEq (dictGet d field) (coerceLit raw) then some (dictGet d "index")
          else none
        | _ => none)) = false := by
      rw [pyMem]
      rw [List.any_eq_false]
      intro x hx
      rw [List.mem_filterMap] at hx
      obtain ⟨item, hitem, hxv⟩ := hx
      obtain ⟨d, rfl, hdn⟩ := hitems item hitem
      simp only at hxv
      by_cases hm : pyEq (dictGet d field) (coerceLit raw) = true
      · rw [if_pos hm] at hxv
        cases hxv
        intro hc
        exact hdn ((pyEq_null_right _).1 hc)
      · rw [if_neg hm] at hxv
        cases hxv
    refine ⟨m.leads.filterMap (fun lead =>
        if ¬ isNull (dictGet lead index_field) ∧ ¬ isNull (dictGet lead index_field)
            ∧ pyMem (dictGet lead index_field) (llm_data.filterMap (fun item =>
              match item with
              | .dict d =>
                if pyEq (dictGet d field) (coerceLit raw) then some (dictGet d "index")
                else none
              | _ => none))
        then some (dictGet lead index_field) else none), ?_, ?_⟩
    · rw [qualifiedIndicesClaim]
      simp only [hreg, hinfo, hidx, hfl]
    · simp only [get_qualified_indices, if_neg hw, hp, hreg, if_pos hfile, hfl, hbm]
      congr 2
      refine List.filterMap_congr (fun lead _ => ?_)
      by_cases hnull : dictGet lead index_field = .null
      · rw [hnull]
        simp only [hnonull]
        simp [isNull]
      · by_cases hmem : pyMem (dictGet lead index_field) (llm_data.filterMap
            (fun item =>
              match item with
              | .dict d =>
                if pyEq (dictGet d field) (coerceLit raw) then some (dictGet d "index")
                else none
              | _ => none)) = true
        · simp [hmem, hnull, isNull_iff]
        · simp [hmem]
  · intro store₂ m hreg hreg₂
    have hlr : load_registry store₂ = load_registry store := by
      rw [load_registry, load_registry, hreg₂]
    simp only [get_qualified_indices, if_neg hw, hp, hlr, hreg]

/-- Witness for the amended C5 at a concrete store: the field `isAgency`
is registered to `postData_isAgency.json` (own index field `postIndex`,
matching the extraction's); a lead carrying a contradicting attached
`isAgency` property filters identically to one without it, and the code's
result coincides with the claimed translation since the domains agree. -/
theorem registry_resolution_amended_witness :
    get_qualified_indices
      ⟨[("postData_isAgency.json",
          [.dict [("index", .int 5), ("isAgency", .bool true)]])], none,
        some ⟨[("postData_isAgency.json", ⟨["isAgency"], "postIndex"⟩)],
          [("isAgency", "postData_isAgency.json")]⟩⟩
      ⟨[[("postIndex", .int 5), ("isAgency", .bool false)]]⟩
      "isAgency=true" "postIndex"
      = get_qualified_indices
      ⟨[("postData_isAgency.json",
          [.dict [("index", .int 5), ("isAgency", .bool true)]])], none,
        some ⟨[("postData_isAgency.json", ⟨["isAgency"], "postIndex"⟩)],
          [("isAgency", "postData_isAgency.json")]⟩⟩
      ⟨[[("postIndex", .int 5)]]⟩ "isAgency=true" "postIndex" ∧
    (∃ qs, qualifiedIndicesClaim
      ⟨[("postData_isAgency.json",
          [.dict [("index", .int 5), ("isAgency", .bool true)]])], none,
        some ⟨[("postData_isAgency.json", ⟨["isAgency"], "postIndex"⟩)],
          [("isAgency", "postData_isAgency.json")]⟩⟩
      ⟨[[("postIndex", .int 5), ("isAgency", .bool false)]]⟩
      "isAgency" (coerceLit "true") "postIndex" = some qs ∧
      get_qualified_indices
      ⟨[("postData_isAgency.json",
          [.dict [("index", .int 5), ("isAgency", .bool true)]])], none,
        some ⟨[("postData_isAgency.json", ⟨["isAgency"], "postIndex"⟩)],
          [("isAgency", "postData_isAgency.json")]⟩⟩
      ⟨[[("postIndex", .int 5), ("isAgency", .bool false)]]⟩
      "isAgency=true" "postIndex" = .ok (some qs)) := by
  have h := registry_resolution_amended
    ⟨[("postData_isAgency.json",
        [.dict [("index", .int 5), ("isAgency", .bool true)]])], none,
      some ⟨[("postData_isAgency.json", ⟨["isAgency"], "postIndex"⟩)],
        [("isAgency", "postData_isAgency.json")]⟩⟩
    "isAgency=true" "postIndex" "isAgency" "true" (by decide) (by rfl)
  constructor
  · refine h.1 "postData_isAgency.json"
      ⟨[[("postIndex", .int 5), ("isAgency", .bool false)]]⟩
      ⟨[[("postIndex", .int 5)]]⟩ (by rfl) (by decide) (fun pos => ?_)
    match pos with
    | 0 => rfl
    | n + 1 => rfl
  · refine h.2.1 "postData_isAgency.json" ⟨["isAgency"], "postIndex"⟩
      [.dict [("index", .int 5), ("isAgency", .bool true)]]
      ⟨[[("postIndex", .int 5), ("isAgency", .bool false)]]⟩
      (by rfl) (by decide) (by rfl) (by rfl) (by rfl) ?_
    intro item hitem
    simp only [List.mem_singleton] at hitem
    subst hitem
    exact ⟨_, rfl, by intro hc; cases hc⟩

/-! ## Row selection, slicing and bounds (C8, C9) -/

/-- Whether a dynamically-typed row index is numeric and below the
dataset length (the rows the loop of `extract_data` emits an entry
for — more negative indices than `-length` abort the whole call). -/
def inRange (len : Int) (v : PyVal) : Bool :=
  match pyNum v with
  | some n => n < len
  | none => false

/-- A successful row loop emits exactly one entry per selected index that
is numeric and below the dataset length, in selection order, carrying
that index value. -/
theorem extractLoop_success_map (data : List PyVal) (path : Option String)
    (fields : Option (List (String × String))) :
    ∀ (idxs : List PyVal) (items : List ExtractItem),
      extractLoop data path fields idxs = .ok items →
      items.map ExtractItem.index = idxs.filter (inRange (data.length : Int)) := by
  intro idxs
  induction idxs with
  | nil =>
    intro items h
    simp only [extractLoop] at h
    cases h
    rfl
  | cons idx rest ih =>
    intro items h
    simp only [extractLoop] at h
    cases hnum : pyNum idx with
    | none =>
      rw [show pyGeInt idx (data.length : Int) = .error .typeError from by
        rw [pyGeInt, hnum]] at h
      cases h
    | some n =>
      rw [show pyGeInt idx (data.length : Int) = .ok (n ≥ (data.length : Int)) from by
        rw [pyGeInt, hnum]] at h
      simp only [bind, Except.instMonad, Except.bind, pure, Except.pure] at h
      by_cases hge : n ≥ (data.length : Int)
      · rw [if_pos (by simpa using hge)] at h
        rw [List.filter_cons, show inRange (data.length : Int) idx = false from by
          rw [inRange, hnum]; simpa using hge]
        exact ih items h
      · rw [if_neg (by simpa using hge)] at h
        rw [List.filter_cons, show inRange (data.length : Int) idx = true from by
          rw [inRange, hnum]; simpa using lt_of_not_ge hge]
        cases hitem : pyListGet data idx with
        | error e => rw [hitem] at h; dsimp only at h; cases h
        | ok row =>
          rw [hitem] at h
          dsimp only at h
          by_cases hf : fieldsTruthy fields = true
          · rw [if_pos hf] at h
            cases htail : extractLoop data path fields rest with
            | error e => rw [htail] at h; dsimp only at h; cases h
            | ok tail =>
              rw [htail] at h
              dsimp only at h
              cases h
              simpa using ih tail htail
          · rw [if_neg hf] at h
            cases hsegs : parse_path (path.getD "") with
            | error e => rw [hsegs] at h; dsimp only at h; cases h
            | ok segs =>
              rw [hsegs] at h
              dsimp only at h
              cases htail : extractLoop data path fields rest with
              | error e => rw [htail] at h; dsimp only at h; cases h
              | ok tail =>
                rw [htail] at h
                dsimp only at h
                cases h
                simpa using ih tail htail

/-- C9: in a successful where-filtered extraction (no offset or limit),
every returned entry's index is numeric and below the dataset length;
qualified indices at or beyond the length are silently skipped, so the
returned count equals the number of in-range qualified indices and can
be smaller than the number of qualified lead indices. -/
theorem extract_where_bounds (store : Store) (source : String)
    (path : Option String) (fields : Option (List (String × String)))
    (w : String) (rows : List PyVal) (qs : List PyVal)
    (hfile : fileLookup store (get_dataset_path source) = some rows)
    (hw : w ≠ "")
    (hq : get_qualified_indices store (load_mapping store) w
      (derive_index_field source) = .ok (some qs))
    (hst : (extract_data store source path fields (some w) none none).status
      = "success") :
    (∀ item ∈ (extract_data store source path fields (some w) none none).data,
      ∃ n, pyNum item.index = some n ∧ n < (rows.length : Int)) ∧
    (extract_data store source path fields (some w) none none).count
      = (qs.filter (inRange (rows.length : Int))).length ∧
    (extract_data store source path fields (some w) none none).count
      ≤ qs.length := by
  by_cases harg : (strFalsy path ∧ ¬ fieldsTruthy fields)
  · exfalso
    have hbad : extract_data store source path fields (some w) none none
        = ⟨"error", [], 0, some "Must provide either path or fields"⟩ := by
      simp only [extract_data, if_pos harg]
    rw [hbad] at hst
    exact absurd hst (by decide)
  · have hbody' : extractBody store source path fields (some w) none none rows
        = extractLoop rows path fields qs := by
      simp only [extractBody, hq, if_pos hw, bind, Except.instMonad, Except.bind,
        pure, Except.pure]
    cases hloop : extractLoop rows path fields qs with
    | error e =>
      exfalso
      have hbad : extract_data store source path fields (some w) none none
          = ⟨"error", [], 0, some (pyErrStr e)⟩ := by
        simp only [extract_data, if_neg harg, hfile, hbody', hloop]
      rw [hbad] at hst
      simp at hst
    | ok items =>
      have hE : extract_data store source path fields (some w) none none
          = ⟨"success", items, items.length, none⟩ := by
        simp only [extract_data, if_neg harg, hfile, hbody', hloop]
      have hmap := extractLoop_success_map rows path fields qs items hloop
      rw [hE]
      refine ⟨?_, ?_, ?_⟩
      · intro item hitem
        have hmem : item.index ∈ items.map ExtractItem.index :=
          List.mem_map_of_mem _ hitem
        rw [hmap] at hmem
        have hin := (List.mem_filter.1 hmem).2
        rw [inRange] at hin
        cases hnum : pyNum item.index with
        | none => rw [hnum] at hin; cases hin
        | some n =>
          rw [hnum] at hin
          exact ⟨n, rfl, by simpa using hin⟩
      · show items.length = _
        rw [← List.length_map items ExtractItem.index, hmap]
      · show items.length ≤ _
        rw [← List.length_map items ExtractItem.index, hmap]
        exact List.length_filter_le _ _

/-- Witness for C9: a two-row dataset whose only where-qualified lead
index is 5 — out of range, so the result succeeds with zero entries,
fewer than the one qualified index. -/
theorem extract_where_bounds_witness :
    (∀ item ∈ (extract_data
        ⟨[("postData.json", [.dict [("content", .str "a")],
            .dict [("content", .str "b")]])],
          some ⟨[[("postIndex", .int 5), ("flag", .bool true)]]⟩, none⟩
        "postData" (some "[*].content") none (some "flag=true") none none).data,
      ∃ n, pyNum item.index = some n ∧ n < ((2 : Nat) : Int)) ∧
    (extract_data
        ⟨[("postData.json", [.dict [("content", .str "a")],
            .dict [("content", .str "b")]])],
          some ⟨[[("postIndex", .int 5), ("flag", .bool true)]]⟩, none⟩
        "postData" (some "[*].content") none (some "flag=true") none none).count
      = ([PyVal.int 5].filter (inRange ((2 : Nat) : Int))).length ∧
    (extract_data
        ⟨[("postData.json", [.dict [("content", .str "a")],
            .dict [("content", .str "b")]])],
          some ⟨[[("postIndex", .int 5), ("flag", .bool true)]]⟩, none⟩
        "postData" (some "[*].content") none (some "flag=true") none none).count
      ≤ [PyVal.int 5].length :=
  extract_where_bounds
    ⟨[("postData.json", [.dict [("content", .str "a")],
        .dict [("content", .str "b")]])],
      some ⟨[[("postIndex", .int 5), ("flag", .bool true)]]⟩, none⟩
    "postData" (some "[*].content") none "flag=true"
    [.dict [("content", .str "a")], .dict [("content", .str "b")]]
    [PyVal.int 5] (by rfl) (by decide) (by rfl) (by rfl)

/-- C8 (amended): offset and limit are applied after where-filtering as
a slice of the selected row-index list in its selection order, but with
Python truthiness: an offset of `None` or `0` drops nothing, a limit of
`None` or `0` performs no truncation at all — `limit = 0` returns every
selected row, not an empty result; a positive offset drops that many
selected indices and a positive limit keeps at most that many; and the
selection order is ascending row order only for unfiltered extractions —
a where filter is processed in qualified-lead order. -/
theorem extract_offset_limit_slice (store : Store) (source p : String)
    (rows : List PyVal) (restSegs : List Segment)
    (hfile : fileLookup store (get_dataset_path source) = some rows)
    (hparse : parse_path p = .ok (Segment.all :: restSegs)) :
    (∀ (source₂ : String) (p₂ : Option String) f w o,
      extract_data store source₂ p₂ f w o (some 0)
        = extract_data store source₂ p₂ f w o none) ∧
    (∀ (source₂ : String) (p₂ : Option String) f w l,
      extract_data store source₂ p₂ f w (some 0) l
        = extract_data store source₂ p₂ f w none l) ∧
    (∀ (o l : Nat), l ≠ 0 →
      extract_data store source (some p) none none (some (o : Int)) (some (l : Int))
        = ⟨"success",
            (((List.range rows.length).map (fun (i : Nat) =>
              (⟨PyVal.int (i : Int), rowValue restSegs (rows.getD i PyVal.null)⟩
                : ExtractItem))).drop o).take l,
            ((((List.range rows.length).map (fun (i : Nat) =>
              (⟨PyVal.int (i : Int), rowValue restSegs (rows.getD i PyVal.null)⟩
                : ExtractItem))).drop o).take l).length, none⟩) ∧
    (∀ (w : String) qs, w ≠ "" →
      get_qualified_indices store (load_mapping store) w
        (derive_index_field source) = .ok (some qs) →
      (extract_data store source (some p) none (some w) none none).status
        = "success" →
      (extract_data store source (some p) none (some w) none none).data.map
        ExtractItem.index = qs.filter (inRange (rows.length : Int))) := by
  have hp0 : p ≠ "" := by
    intro h0
    rw [h0] at hparse
    simp [parse_path, parsePathAux, flushKey] at hparse
  refine ⟨fun _ _ _ _ _ => rfl, fun _ _ _ _ _ => rfl, ?_, ?_⟩
  · intro o l hl
    have hloop := extractLoop_nat_list rows p restSegs hparse
      (((List.range rows.length).drop o).take l)
      (by
        intro i hi
        exact List.mem_range.1 (List.mem_of_mem_drop (List.mem_of_mem_take hi)))
    have hbody : extractBody store source (some p) none none
        (some (o : Int)) (some (l : Int)) rows
        = extractLoop rows (some p) none
          ((((List.range rows.length).drop o).take l).map
            (fun (i : Nat) => PyVal.int (i : Int))) := by
      simp only [extractBody, bind, Except.instMonad, Except.bind, pure, Except.pure]
      congr 1
      by_cases ho : o = 0
      · subst ho
        simp [pySliceTo, hl, List.map_take, List.map_drop]
      · simp [pySliceFrom, pySliceTo, ho, hl, Int.toNat_ofNat,
          List.map_take, List.map_drop]
    have hmain : extract_data store source (some p) none none
        (some (o : Int)) (some (l : Int))
        = ⟨"success",
            (((List.range rows.length).drop o).take l).map (fun (i : Nat) =>
              (⟨PyVal.int (i : Int), rowValue restSegs (rows.getD i PyVal.null)⟩
                : ExtractItem)),
            ((((List.range rows.length).drop o).take l).map (fun (i : Nat) =>
              (⟨PyVal.int (i : Int), rowValue restSegs (rows.getD i PyVal.null)⟩
                : ExtractItem))).length, none⟩ := by
      simp only [extract_data, strFalsy, hp0, fieldsTruthy, hfile, hbody, hloop]
      simp
    rw [hmain]
    rw [List.map_take, List.map_drop]
  · intro w qs hw hq hst
    have hbody' : extractBody store source (some p) none (some w) none none rows
        = extractLoop rows (some p) none qs := by
      simp only [extractBody, hq, if_pos hw, bind, Except.instMonad, Except.bind,
        pure, Except.pure]
    have harg : ¬ (strFalsy (some p) ∧ ¬ fieldsTruthy (none : Option (List (String × String)))) := by
      simp [strFalsy, hp0]
    cases hloop : extractLoop rows (some p) none qs with
    | error e =>
      exfalso
      have hbad : extract_data store source (some p) none (some w) none none
          = ⟨"error", [], 0, some (pyErrStr e)⟩ := by
        simp only [extract_data, if_neg harg, hfile, hbody', hloop]
      rw [hbad] at hst
      simp at hst
    | ok items =>
      have hE : extract_data store source (some p) none (some w) none none
          = ⟨"success", items, items.length, none⟩ := by
        simp only [extract_data, if_neg harg, hfile, hbody', hloop]
      rw [hE]
      exact extractLoop_success_map rows (some p) none qs items hloop

/-- C8, counterexample: on a three-row dataset, `limit = 0` is falsy in
Python, so the slice is skipped and all three rows are returned — not an
empty result; and a where filter whose qualified lead indices are in the
order `[2, 0]` is returned in that order, not ascending. -/
theorem extract_limit_zero_counterexample :
    (extract_data
      ⟨[("postData.json",
          [.dict [("content", .str "a")], .dict [("content", .str "b")],
           .dict [("content", .str "c")]])], none, none⟩
      "postData" (some "[*].content") none none none (some 0)).count = 3 ∧
    (extract_data
      ⟨[("postData.json",
          [.dict [("content", .str "a")], .dict [("content", .str "b")],
           .dict [("content", .str "c")]])],
        some ⟨[[("postIndex", .int 2), ("flag", .bool true)],
               [("postIndex", .int 0), ("flag", .bool true)]]⟩, none⟩
      "postData" (some "[*].content") none (some "flag=true") none none).data.map
      ExtractItem.index = [.int 2, .int 0] := by
  constructor
  · have hloop := extractLoop_nat_list
      [.dict [("content", .str "a")], .dict [("content", .str "b")],
       .dict [("content", .str "c")]]
      "[*].content" [Segment.key "content"] (by rfl) [0, 1, 2] (by decide)
    have hform : extract_data
        ⟨[("postData.json",
            [.dict [("content", .str "a")], .dict [("content", .str "b")],
             .dict [("content", .str "c")]])], none, none⟩
        "postData" (some "[*].content") none none none (some 0)
      = (match extractLoop
          [.dict [("content", .str "a")], .dict [("content", .str "b")],
           .dict [("content", .str "c")]]
          (some "[*].content") none
          (([0, 1, 2] : List Nat).map (fun (i : Nat) => PyVal.int (i : Int))) with
         | .ok items => (⟨"success", items, items.length, none⟩ : ExtractOutput)
         | .error e => ⟨"error", [], 0, some (pyErrStr e)⟩) := rfl
    rw [hform, hloop]
    rfl
  · have hloop := extractLoop_nat_list
      [.dict [("content", .str "a")], .dict [("content", .str "b")],
       .dict [("content", .str "c")]]
      "[*].content" [Segment.key "content"] (by rfl) [2, 0] (by decide)
    have hform : extract_data
        ⟨[("postData.json",
            [.dict [("content", .str "a")], .dict [("content", .str "b")],
             .dict [("content", .str "c")]])],
          some ⟨[[("postIndex", .int 2), ("flag", .bool true)],
                 [("postIndex", .int 0), ("flag", .bool true)]]⟩, none⟩
        "postData" (some "[*].content") none (some "flag=true") none none
      = (match extractLoop
          [.dict [("content", .str "a")], .dict [("content", .str "b")],
           .dict [("content", .str "c")]]
          (some "[*].content") none
          (([2, 0] : List Nat).map (fun (i : Nat) => PyVal.int (i : Int))) with
         | .ok items => (⟨"success", items, items.length, none⟩ : ExtractOutput)
         | .error e => ⟨"error", [], 0, some (pyErrStr e)⟩) := rfl
    rw [hform, hloop]
    rfl

/-- Witness for the amended C8: offset 1 and limit 1 slice the three-row
dataset to its middle row, and limit 0 behaves as no limit. -/
theorem extract_offset_limit_slice_witness :
    extract_data
      ⟨[("postData.json",
          [.dict [("content", .str "a")], .dict [("content", .str "b")],
           .dict [("content", .str "c")]])], none, none⟩
      "postData" (some "[*].content") none none (some 1) (some 1)
      = ⟨"success", [⟨.int 1, .str "b"⟩], 1, none⟩ ∧
    extract_data
      ⟨[("postData.json",
          [.dict [("content", .str "a")], .dict [("content", .str "b")],
           .dict [("content", .str "c")]])], none, none⟩
      "postData" (some "[*].content") none none none (some 0)
      = extract_data
      ⟨[("postData.json",
          [.dict [("content", .str "a")], .dict [("content", .str "b")],
           .dict [("content", .str "c")]])], none, none⟩
      "postData" (some "[*].content") none none none none := by
  have h := extract_offset_limit_slice
    ⟨[("postData.json",
        [.dict [("content", .str "a")], .dict [("content", .str "b")],
         .dict [("content", .str "c")]])], none, none⟩
    "postData" "[*].content"
    [.dict [("content", .str "a")], .dict [("content", .str "b")],
     .dict [("content", .str "c")]]
    [Segment.key "content"] (by rfl) (by rfl)
  constructor
  · have hc := h.2.2.1 1 1 (by decide)
    rw [show ((1 : Nat) : Int) = (1 : Int) from rfl] at hc
    rw [hc]
    simp only [List.length_cons, List.length_nil, List.range, List.range.loop,
      List.map, List.drop, List.take, List.getD, List.get?_cons_zero,
      List.get?_cons_succ, Option.getD_some, rowValue, navigate_path, dictGet,
      absorb]
    rfl
  · exact h.1 "postData" (some "[*].content") none none none

end DataUtils
